import Mathlib

/-!
Verification of the `monte_carlo` simulation engine
(`src/sim-native/des/src/lib.rs` and `src/sim-native/monte/src/lib.rs`).

The Rust source is shallowly embedded over `ℝ` (the source computes with
`f64`; real arithmetic is the idealisation of that floating-point
arithmetic).  Hash maps are modelled as association lists keyed uniquely;
the source's thread-local RNG is modelled as a finite stream of uniform
draws (`List ℝ`), and Rust's `DefaultHasher` (used only by the reservoir
sampler) is modelled as an arbitrary function `ℕ → ℕ` because only
remainders of hash values are consumed.
-/

namespace MonteCarloSim

/-! ## Association-list helpers (model of `std::collections::HashMap`) -/

/-- Lookup in an association list (model of `HashMap::get`). -/
def lookupA {α : Type} : List (String × α) → String → Option α
  | [], _ => none
  | (k', v) :: rest, k => if k' = k then some v else lookupA rest k

/-- Update-or-insert in an association list (model of `HashMap::entry` /
`HashMap::insert`); a missing key is appended at the end. -/
def updateA {α : Type} : List (String × α) → String → (Option α → α) → List (String × α)
  | [], k, f => [(k, f none)]
  | (k', v) :: rest, k, f =>
      if k' = k then (k', f (some v)) :: rest else (k', v) :: updateA rest k f

theorem lookupA_updateA {α : Type} (m : List (String × α)) (k k' : String) (f : Option α → α) :
    lookupA (updateA m k f) k' =
      if k = k' then some (f (lookupA m k)) else lookupA m k' := by
  induction m with
  | nil =>
    by_cases h : k = k' <;> simp [lookupA, updateA, h]
  | cons hd tl ih =>
    obtain ⟨k0, v0⟩ := hd
    by_cases h0 : k0 = k
    · subst h0
      by_cases h1 : k0 = k' <;> simp [lookupA, updateA, h1]
    · by_cases h1 : k0 = k'
      · subst h1
        simp [lookupA, updateA, h0, ih]
        rw [if_neg (fun h => h0 h.symm)]
      · simp [lookupA, updateA, h0, h1, ih]

/-! ## Data structures (`des/src/lib.rs`, lines 14-190) -/

/-- Model of `struct Distribution`: a tagged distribution descriptor.  All numeric
fields are optional, mirroring the serde-deserialised Rust struct. -/
structure Distribution where
  distType : String
  valueHours : Option ℝ := none
  value : Option ℝ := none
  ratePerHour : Option ℝ := none
  rate : Option ℝ := none
  a : Option ℝ := none
  m : Option ℝ := none
  b : Option ℝ := none
  mu : Option ℝ := none
  sigma : Option ℝ := none

/-- Model of `struct Aircrew`. -/
structure Aircrew where
  pilot : Option ℕ := none
  so : Option ℕ := none

/-- Model of `struct MissionType`. -/
structure MissionType where
  name : String
  priority : Option ℕ := none
  requiredPayloadTypes : Option (List String) := none
  requiredAircrew : Option Aircrew := none
  flightTime : Distribution

/-- Model of `struct Demand`. -/
structure Demand where
  missionType : String
  demandType : Option String := none
  ratePerHour : Option ℝ := none
  everyHours : Option ℝ := none
  intervalHours : Option ℝ := none
  startAtHours : Option ℝ := none

/-- Model of `struct UnitPolicy`. -/
structure UnitPolicy where
  assignment : Option String := none
  missionSplit : Option (List (String × ℝ)) := none

/-- Model of `struct ProcessTimes`. -/
structure ProcessTimes where
  preflight : Option Distribution := none
  postflight : Option Distribution := none
  turnaround : Option Distribution := none
  mountTimes : Option (List (String × Distribution)) := none

/-- Model of `struct Scenario`. -/
structure Scenario where
  name : Option String := none
  horizonHours : ℝ
  demand : List Demand
  missionTypes : List MissionType
  processTimes : Option ProcessTimes := none
  unitPolicy : Option UnitPolicy := none

/-- A JSON value appearing in a state-table row, modelled up to the only
observation the source makes of it (`serde_json::Value::as_str`). -/
inductive JVal where
  | str (s : String)
  | other

/-- Model of `Value::as_str`. -/
def JVal.asStr : JVal → Option String
  | .str s => some s
  | .other => none

/-- A state-table row: `HashMap<String, serde_json::Value>`. -/
def Row : Type := List (String × JVal)

/-- Model of `row.get(k).and_then(|v| v.as_str())`. -/
def Row.getStr (r : Row) (k : String) : Option String :=
  (lookupA r k).bind JVal.asStr

/-- Model of `struct StateTable`. -/
structure StateTable where
  rows : List Row

/-- Model of `struct State`: the tabular state snapshot. -/
structure State where
  tables : List (String × StateTable)

/-- Model of `struct UnitOverrides`. -/
structure UnitOverrides where
  aircraft : Option ℝ := none
  pilot : Option ℝ := none
  so : Option ℝ := none
  payloadPerType : Option ℝ := none
  payloadByType : Option (List (String × ℝ)) := none

/-- Model of `struct Overrides`. -/
structure Overrides where
  units : Option (List (String × UnitOverrides)) := none

/-- Model of `struct Options` (DES options). -/
structure Options where
  state : Option State := none
  overrides : Option Overrides := none

/-- Model of `struct CrewCounts`. -/
structure CrewCounts where
  pilot : ℕ
  so : ℕ

/-- Model of `struct InitialResources`. -/
structure InitialResources where
  units : List String
  aircraftByUnit : List (String × ℕ)
  crewByUnit : List (String × CrewCounts)
  payloadByUnit : List (String × List (String × ℕ))
  overridesApplied : Bool

/-- Model of `struct Utilization` (per-unit fractions). -/
structure Utilization where
  aircraft : ℝ
  pilot : ℝ
  so : ℝ

/-- Model of `struct MissionStats` (u32 counters modelled as `ℕ`). -/
structure MissionStats where
  requested : ℕ
  started : ℕ
  completed : ℕ
  rejected : ℕ

/-- Model of `struct Rejections` (rejection counts by reason). -/
structure Rejections where
  aircraft : ℕ
  pilot : ℕ
  so : ℕ
  payload : ℕ

/-- Model of `struct TimelineSegment`. -/
structure TimelineSegment where
  name : String
  start : ℝ
  stop : ℝ

/-- Model of `enum TimelineEvent`. -/
inductive TimelineEvent where
  | mission (unit missionType : String) (demandTime finishTime : ℝ)
      (segments : List TimelineSegment)
  | rejection (time : ℝ) (unit missionType reason : String)

/-- Model of `struct Results`. -/
structure Results where
  horizonHours : ℝ
  missions : MissionStats
  rejections : Rejections
  utilization : List (String × Utilization)
  byType : List (String × MissionStats)
  timeline : List TimelineEvent
  initialResources : InitialResources

/-! ## Resource pool (`des/src/lib.rs`, lines 196-261)

The `name` field of the Rust struct is dead code (debugging only) and is
dropped.  `last_cleanup_time` is initialised to `f64::NEG_INFINITY` in the
source; the initial value is modelled as `none`. -/

/-- Model of `struct ResourcePool`. -/
structure ResourcePool where
  total : ℕ
  held : List ℝ
  busyTime : ℝ
  allocations : ℕ
  denials : ℕ
  lastCleanupTime : Option ℝ

/-- Model of `ResourcePool::new`. -/
def ResourcePool.new (total : ℕ) : ResourcePool :=
  { total := total, held := [], busyTime := 0, allocations := 0, denials := 0,
    lastCleanupTime := none }

/-- Model of `Vec::partition_point(|&t| t <= bound)`: the number of leading elements
that are `≤ bound`.  The Rust binary search assumes (and the pool maintains)
that the vector is partitioned by the predicate, on which this agrees. -/
noncomputable def partitionPointLe (bound : ℝ) : List ℝ → ℕ
  | [] => 0
  | x :: rest => if x ≤ bound then partitionPointLe bound rest + 1 else 0

/-- The `time > self.last_cleanup_time` test of `available_at`; the
initial `NEG_INFINITY` (`none`) compares below every time. -/
noncomputable def ResourcePool.cleanupDue (pool : ResourcePool) (time : ℝ) : Bool :=
  match pool.lastCleanupTime with
  | none => true
  | some tau => decide (tau < time)

/-- Model of `ResourcePool::available_at` (`&mut self`): returns the free count and
the pool after the lazy cleanup.  `u32` subtraction in the source is
`saturating_sub`, which is `ℕ` subtraction. -/
noncomputable def ResourcePool.availableAt (pool : ResourcePool) (time : ℝ) : ℕ × ResourcePool :=
  let pool :=
    if pool.cleanupDue time then
      { pool with held := pool.held.drop (partitionPointLe time pool.held),
                  lastCleanupTime := some time }
    else pool
  (pool.total - pool.held.length, pool)

/-- Model of `ResourcePool::try_acquire` (`&mut self`): returns the success flag and
the updated pool.  Inserting `count` copies one by one at the partition
point of the release time equals `take pos ++ replicate count rt ++ drop pos`. -/
noncomputable def ResourcePool.tryAcquire (pool : ResourcePool) (time durationHours : ℝ)
    (count : ℕ) : Bool × ResourcePool :=
  let (avail, pool) := pool.availableAt time
  if count ≤ avail then
    let releaseTime := time + durationHours
    let pos := partitionPointLe releaseTime pool.held
    (true,
     { pool with
        held := pool.held.take pos ++ List.replicate count releaseTime ++ pool.held.drop pos,
        allocations := pool.allocations + count,
        busyTime := pool.busyTime + durationHours * count })
  else
    (false, { pool with denials := pool.denials + count })

/-- Model of `ResourcePool::utilization`. -/
noncomputable def ResourcePool.utilization (pool : ResourcePool) (horizonHours : ℝ) : ℝ :=
  if pool.total = 0 ∨ horizonHours ≤ 0 then 0
  else min (pool.busyTime / (pool.total * horizonHours)) 1

/-- Model of `struct UnitPools`. -/
structure UnitPools where
  aircraft : ResourcePool
  pilot : ResourcePool
  so : ResourcePool
  payloads : List (String × ResourcePool)
  missionFinishes : List ℝ

/-! ## Random source and distribution sampling (`des/src/lib.rs`, lines 275-313)

`rand::thread_rng` is modelled as a finite stream of uniform draws in
`[0,1)`; drawing from an exhausted stream yields `0`. -/

/-- The random source: a stream of `rng.gen::<f64>()` results. -/
def Rng : Type := List ℝ

/-- One `rng.gen()` call. -/
def Rng.draw : Rng → ℝ × Rng
  | [] => (0, [])
  | u :: rest => (u, rest)

/-- Model of `fn sample_dist`. -/
noncomputable def sampleDist (dist : Distribution) (rng : Rng) : ℝ × Rng :=
  match dist.distType with
  | "deterministic" => ((dist.valueHours.orElse fun _ => dist.value).getD 0, rng)
  | "exponential" =>
      let rate := (dist.ratePerHour.orElse fun _ => dist.rate).getD 1
      let (u, rng) := rng.draw
      (-Real.log (1 - u) / rate, rng)
  | "triangular" =>
      match dist.a, dist.m, dist.b with
      | some a, some m, some b =>
          let (u, rng) := rng.draw
          let c := (m - a) / (b - a)
          (if u < c then a + Real.sqrt (u * (b - a) * (m - a))
           else b - Real.sqrt ((1 - u) * (b - a) * (b - m)), rng)
      | _, _, _ => (0, rng)
  | "lognormal" =>
      let mu := dist.mu.getD 0
      let sigma := dist.sigma.getD 1
      let (u1, rng) := rng.draw
      let (u2, rng) := rng.draw
      let z := Real.sqrt (-2 * Real.log u1) * Real.cos (2 * Real.pi * u2)
      (Real.exp (mu + sigma * z), rng)
  | _ => (0, rng)

/-! ## Initial resource derivation (`des/src/lib.rs`, lines 319-408)

`HashSet` iteration order is unspecified in Rust; the units list is modelled
in first-encounter order (unit table first, then units first seen in the
aircraft, payload and staffing maps). -/

/-- Append a name if not already present (`HashSet::insert` under the
first-encounter ordering of the model). -/
def insertUnit (units : List String) (u : String) : List String :=
  if u ∈ units then units else units ++ [u]

/-- Model of `fn derive_initial_from_state`.  The source always returns `Some`. -/
def deriveInitialFromState (state : State) : Option InitialResources :=
  let getRows : String → List Row := fun key =>
    match lookupA state.tables key with
    | some t => t.rows
    | none => []
  let aircraftRows := getRows "v_aircraft"
  let payloadRows := getRows "v_payload"
  let staffingRows := getRows "v_staffing"
  let unitRows := getRows "v_unit"
  let units0 : List String :=
    unitRows.foldl (fun acc r =>
      match r.getStr "Unit" with
      | some u => insertUnit acc u
      | none => acc) []
  let aircraftByUnit : List (String × ℕ) :=
    aircraftRows.foldl (fun acc r =>
      match r.getStr "Status", r.getStr "Unit" with
      | some status, some unit =>
          if status = "FMC" then updateA acc unit (fun o => o.getD 0 + 1) else acc
      | _, _ => acc) []
  let payloadByUnit : List (String × List (String × ℕ)) :=
    payloadRows.foldl (fun acc r =>
      let unit := (r.getStr "Unit").getD "UNKNOWN"
      match r.getStr "Type" with
      | some tv =>
          updateA acc unit (fun o =>
            updateA (o.getD []) tv (fun c => c.getD 0 + 1))
      | none => acc) []
  let crewByUnit : List (String × CrewCounts) :=
    staffingRows.foldl (fun acc r =>
      match r.getStr "Unit Name", r.getStr "MOS Number" with
      | some unitName, some mos =>
          updateA acc unitName (fun o =>
            let crew := o.getD ⟨0, 0⟩
            if mos = "7318" then { crew with pilot := crew.pilot + 1 }
            else if mos = "7314" then { crew with so := crew.so + 1 }
            else crew)
      | _, _ => acc) []
  let units1 := aircraftByUnit.foldl (fun acc kv => insertUnit acc kv.1) units0
  let units2 := payloadByUnit.foldl (fun acc kv => insertUnit acc kv.1) units1
  let units3 := crewByUnit.foldl (fun acc kv => insertUnit acc kv.1) units2
  some { units := units3, aircraftByUnit := aircraftByUnit, crewByUnit := crewByUnit,
         payloadByUnit := payloadByUnit, overridesApplied := false }

/-- Rust `f64::floor() as u32` for the nonnegative override values
(negative values are filtered out before this cast). -/
noncomputable def floorToNat (x : ℝ) : ℕ := ⌊x⌋.toNat

/-- Override application for a single unit
(`run_simulation_internal_ref`, lines 546-612). -/
noncomputable def applyUnitOverride (requiredPayloadTypes : List String)
    (initial : InitialResources) (unit : String) (o : UnitOverrides) : InitialResources :=
  let initial :=
    if unit ∈ initial.units then initial
    else { initial with units := initial.units ++ [unit] }
  let initial :=
    match o.aircraft with
    | some ac =>
        if 0 ≤ ac then
          let m := updateA initial.aircraftByUnit unit (fun _ => floorToNat ac)
          { initial with aircraftByUnit := m }
        else initial
    | none => initial
  let initial :=
    match o.pilot with
    | some pilot =>
        if 0 ≤ pilot then
          let m := updateA initial.crewByUnit unit
            (fun c => { (c.getD ⟨0, 0⟩) with pilot := floorToNat pilot })
          { initial with crewByUnit := m }
        else initial
    | none => initial
  let initial :=
    match o.so with
    | some so =>
        if 0 ≤ so then
          let m := updateA initial.crewByUnit unit
            (fun c => { (c.getD ⟨0, 0⟩) with so := floorToNat so })
          { initial with crewByUnit := m }
        else initial
    | none => initial
  let initial :=
    match o.payloadByType with
    | some payloadByType =>
        let m := updateA initial.payloadByUnit unit
          (fun up =>
            payloadByType.foldl (fun acc kv =>
              if 0 ≤ kv.2 then updateA acc kv.1 (fun _ => floorToNat kv.2) else acc)
              (up.getD []))
        { initial with payloadByUnit := m }
    | none => initial
  let initial :=
    match o.payloadPerType with
    | some payloadPerType =>
        if 0 ≤ payloadPerType then
          let m := updateA initial.payloadByUnit unit
            (fun up =>
              let up := up.getD []
              let types := requiredPayloadTypes.foldl insertUnit (up.map (·.1))
              types.foldl (fun acc t =>
                updateA acc t (fun _ => floorToNat payloadPerType)) up)
          { initial with payloadByUnit := m }
        else initial
    | none => initial
  initial

/-- Override application (`run_simulation_internal_ref`, lines 534-615). -/
noncomputable def applyOverrides (scenario : Scenario) (initial : InitialResources)
    (overrides : Overrides) : InitialResources :=
  match overrides.units with
  | none => initial
  | some unitsOverrides =>
      let requiredPayloadTypes : List String :=
        scenario.missionTypes.foldl (fun acc mt =>
          match mt.requiredPayloadTypes with
          | some payloads => payloads.foldl insertUnit acc
          | none => acc) []
      let initial := unitsOverrides.foldl (fun acc kv =>
        applyUnitOverride requiredPayloadTypes acc kv.1 kv.2) initial
      { initial with overridesApplied := true }

/-! ## Demand generation (`des/src/lib.rs`, lines 414-473) -/

/-- Model of `struct DemandEvent`. -/
structure DemandEvent where
  time : ℝ
  eventType : String
  missionType : String

/-- The deterministic demand loop
(`while t < horizon { events.push(t); t += every; }`); only entered by the
generator when `0 < every`, which also bounds the recursion. -/
noncomputable def detLoop (horizon every t : ℝ) : List ℝ :=
  if _h : 0 < every ∧ t < horizon then t :: detLoop horizon every (t + every) else []
termination_by (Int.ceil ((horizon - t) / every)).toNat
decreasing_by
  obtain ⟨he, ht⟩ := _h
  have hne : every ≠ 0 := ne_of_gt he
  have key : (horizon - (t + every)) / every = (horizon - t) / every - 1 := by
    field_simp; ring
  rw [key, Int.ceil_sub_one]
  have hpos : (0:ℝ) < (horizon - t) / every := div_pos (by linarith) he
  have hceil : 0 < ⌈(horizon - t) / every⌉ := Int.ceil_pos.mpr hpos
  omega

/-- The Poisson demand loop.  Each step draws one exponential inter-arrival
via `sample_dist`; the model recurses on the entropy stream, halting when it
is exhausted (the real generator has an unbounded stream). -/
noncomputable def poissonLoop (horizon rate : ℝ) : ℝ → Rng → List ℝ × Rng
  | _, [] => ([], [])
  | t, u :: rest =>
      if t < horizon then
        let dt := (sampleDist { distType := "exponential", ratePerHour := some rate }
          (u :: rest)).1
        let t' := t + dt
        let (tail, rng) := poissonLoop horizon rate t' rest
        ((if t' ≤ horizon then [t'] else []) ++ tail, rng)
      else ([], u :: rest)

/-- Model of `fn generate_demand`.  Rust's stable `sort_by` on times is modelled by
insertion sort, which is extensionally every stable sort. -/
noncomputable def generateDemand (scenario : Scenario) (rng : Rng) : List DemandEvent × Rng :=
  let horizon := scenario.horizonHours
  let (events, rng) := scenario.demand.foldl
    (fun (acc : List DemandEvent × Rng) d =>
      let (events, rng) := acc
      let demandType := d.demandType.getD "poisson"
      if demandType = "deterministic" then
        let every := (d.everyHours.orElse fun _ => d.intervalHours).getD 1
        if every ≤ 0 then (events, rng)
        else
          let times := detLoop horizon every (d.startAtHours.getD 0)
          (events ++ times.map (fun t =>
            { time := t, eventType := "mission_demand", missionType := d.missionType }), rng)
      else
        let rate := d.ratePerHour.getD 0
        if rate ≤ 0 then (events, rng)
        else
          let (times, rng) := poissonLoop horizon rate 0 rng
          (events ++ times.map (fun t =>
            { time := t, eventType := "mission_demand", missionType := d.missionType }), rng))
    ([], rng)
  (events.insertionSort (fun a b => a.time ≤ b.time), rng)

/-! ## DES event loop (`des/src/lib.rs`, lines 496-989) -/

/-- Loop-invariant context of `run_simulation_internal_ref`. -/
structure Ctx where
  horizon : ℝ
  missionTypes : List (String × MissionType)
  preSpec : Option Distribution
  postSpec : Option Distribution
  turnSpec : Option Distribution
  mountTimes : Option (List (String × Distribution))
  unitList : List String
  missionSplit : Option (List (String × ℝ))

/-- Mutable state threaded through the event loop. -/
structure SimState where
  pools : List (String × UnitPools)
  results : Results
  rng : Rng

/-- First entry of the cumulative-weight list whose bound is `≥ r`
(the `for (u, c) in cum { if r <= c { ... break; } }` scan). -/
noncomputable def pickCum (r : ℝ) : List (String × ℝ) → Option String
  | [] => none
  | (u, c) :: rest => if r ≤ c then some u else pickCum r rest

/-- Weighted random unit selection (lines 701-717). -/
noncomputable def selectWeighted (unitList : List String) (split : List (String × ℝ))
    (rng : Rng) : String × Rng :=
  let folded := unitList.foldl
    (fun (st : ℝ × List (String × ℝ)) u =>
      let acc := st.1 + (lookupA split u).getD 0
      (acc, st.2 ++ [(u, acc)])) (0, [])
  let (u, rng) := rng.draw
  let r := u * folded.1
  ((pickCum r folded.2).getD (unitList.getLast?.getD ""), rng)

/-- The payload admission-check loop (lines 747-757): inserts a fresh
zero-capacity pool for each missing payload type (`entry().or_insert_with`),
runs the stateful `available_at`, and stops at the first insufficient type. -/
noncomputable def payloadCheckLoop (time : ℝ) :
    List String → List (String × ResourcePool) → Bool × List (String × ResourcePool)
  | [], m => (true, m)
  | pt :: rest, m =>
      let p0 := (lookupA m pt).getD (ResourcePool.new 0)
      let (avail, p1) := p0.availableAt time
      let m1 := updateA m pt (fun _ => p1)
      if avail < 1 then (false, m1) else payloadCheckLoop time rest m1

/-- The payload acquisition loop (lines 854-866).  Returns the number of
defensive failures (each increments `missions.rejected` and
`rejections.payload` in the caller); the `continue` in the source only
continues this inner loop, so every type is attempted.  The `.unwrap()`
lookup cannot miss because the check loop inserted every required type. -/
noncomputable def payloadAcquireLoop (time duration : ℝ) :
    List String → List (String × ResourcePool) → ℕ × List (String × ResourcePool)
  | [], m => (0, m)
  | pt :: rest, m =>
      let p0 := (lookupA m pt).getD (ResourcePool.new 0)
      let (ok, p1) := p0.tryAcquire time duration 1
      let m1 := updateA m pt (fun _ => p1)
      let (fails, m2) := payloadAcquireLoop time duration rest m1
      ((if ok then 0 else 1) + fails, m2)

/-- The admission-rejection bookkeeping shared by the four rejection
branches (lines 759-849): `missions.rejected`, one reason counter, the
per-type `requested`/`rejected`, and a `Rejection` timeline entry. -/
noncomputable def recordRejection (res : Results) (time : ℝ) (unit mtName reason : String)
    (bump : Rejections → Rejections) : Results :=
  { res with
      missions := { res.missions with rejected := res.missions.rejected + 1 },
      rejections := bump res.rejections,
      byType := updateA res.byType mtName (fun o =>
        let bt := o.getD ⟨0, 0, 0, 0⟩
        { bt with requested := bt.requested + 1, rejected := bt.rejected + 1 }),
      timeline := res.timeline ++ [TimelineEvent.rejection time unit mtName reason] }

/-- Unit selection for one event (lines 696-718): round-robin by event
index when there is no (or an empty) mission split, weighted random
otherwise. -/
noncomputable def selectUnit (ctx : Ctx) (i : ℕ) (rng : Rng) : String × Rng :=
  match ctx.missionSplit with
  | none => (ctx.unitList.getD (i % ctx.unitList.length) "", rng)
  | some split =>
      if split = [] then (ctx.unitList.getD (i % ctx.unitList.length) "", rng)
      else selectWeighted ctx.unitList split rng

/-- Duration sampling for one event (lines 722-739), in source order:
mount (per required payload type), preflight, flight, postflight,
turnaround.  Returns `(pre, mount, flight, post, turnaround)` and the
advanced random stream. -/
noncomputable def sampleDurations (ctx : Ctx) (mt : MissionType) (rng : Rng) :
    (ℝ × ℝ × ℝ × ℝ × ℝ) × Rng :=
  let (mountTime, rng) :=
    match mt.requiredPayloadTypes with
    | none => ((0:ℝ), rng)
    | some ptypes =>
        ptypes.foldl (fun (st : ℝ × Rng) pt =>
          match ctx.mountTimes with
          | none => st
          | some mm =>
              match lookupA mm pt with
              | none => st
              | some spec =>
                  let (v, r) := sampleDist spec st.2
                  (st.1 + v, r)) (0, rng)
  let (pre, rng) :=
    match ctx.preSpec with
    | none => ((0:ℝ), rng)
    | some spec => sampleDist spec rng
  let (flight, rng) := sampleDist mt.flightTime rng
  let (post, rng) :=
    match ctx.postSpec with
    | none => ((0:ℝ), rng)
    | some spec => sampleDist spec rng
  let (turnaround, rng) :=
    match ctx.turnSpec with
    | none => ((0:ℝ), rng)
    | some spec => sampleDist spec rng
  ((pre, mountTime, flight, post, turnaround), rng)

/-- The short-circuited crew availability check
(`need > 0 && pool.available_at(t) < need`): `available_at` runs (and
cleans) only when the requirement is positive. -/
noncomputable def crewCheck (p : ResourcePool) (time : ℝ) (need : ℕ) : Bool × ResourcePool :=
  if 0 < need then
    let (avail, p1) := p.availableAt time
    (decide (avail < need), p1)
  else (false, p)

/-- The short-circuited crew acquisition
(`need > 0 && !pool.try_acquire(t, d, need)`, reported as success when the
requirement is zero). -/
noncomputable def crewAcquire (p : ResourcePool) (time duration : ℝ) (need : ℕ) :
    Bool × ResourcePool :=
  if 0 < need then p.tryAcquire time duration need else (true, p)

/-- The per-event body of the event loop (lines 688-938), from the
unconditional `missions.requested += 1` to the timeline append.  `i` is the
event's index in the time-sorted stream (used for round-robin selection). -/
noncomputable def handleDemand (ctx : Ctx) (i : ℕ) (ev : DemandEvent) (s : SimState) : SimState :=
  let res0 := { s.results with
    missions := { s.results.missions with requested := s.results.missions.requested + 1 } }
  match lookupA ctx.missionTypes ev.missionType with
  | none => { s with results := res0 }
  | some mt =>
    if ctx.unitList = [] then { s with results := res0 }
    else
      let (unit, rng) := selectUnit ctx i s.rng
      match lookupA s.pools unit with
      | none => { s with results := res0, rng := rng }
      | some pool =>
        let ((pre, mountTime, flight, post, turnaround), rng) := sampleDurations ctx mt rng
        let duration := pre + mountTime + flight + post + turnaround
        let needPilot := (mt.requiredAircrew.bind (·.pilot)).getD 0
        let needSo := (mt.requiredAircrew.bind (·.so)).getD 0
        let payloadTypes := mt.requiredPayloadTypes.getD []
        let (payloadOk, payloads1) := payloadCheckLoop ev.time payloadTypes pool.payloads
        let pool := { pool with payloads := payloads1 }
        if payloadOk = false then
          { pools := updateA s.pools unit (fun _ => pool),
            results := recordRejection res0 ev.time unit mt.name "payload"
              (fun rj => { rj with payload := rj.payload + 1 }),
            rng := rng }
        else
          let (acAvail, acPool) := pool.aircraft.availableAt ev.time
          let pool := { pool with aircraft := acPool }
          if acAvail < 1 then
            { pools := updateA s.pools unit (fun _ => pool),
              results := recordRejection res0 ev.time unit mt.name "aircraft"
                (fun rj => { rj with aircraft := rj.aircraft + 1 }),
              rng := rng }
          else
            let (pilotShort, pilotPool) := crewCheck pool.pilot ev.time needPilot
            let pool := { pool with pilot := pilotPool }
            if pilotShort then
              { pools := updateA s.pools unit (fun _ => pool),
                results := recordRejection res0 ev.time unit mt.name "pilot"
                  (fun rj => { rj with pilot := rj.pilot + 1 }),
                rng := rng }
            else
              let (soShort, soPool) := crewCheck pool.so ev.time needSo
              let pool := { pool with so := soPool }
              if soShort then
                { pools := updateA s.pools unit (fun _ => pool),
                  results := recordRejection res0 ev.time unit mt.name "so"
                    (fun rj => { rj with so := rj.so + 1 }),
                  rng := rng }
              else
                let (payloadFails, payloads2) :=
                  payloadAcquireLoop ev.time duration payloadTypes pool.payloads
                let pool := { pool with payloads := payloads2 }
                let res1 := { res0 with
                  missions := { res0.missions with
                    rejected := res0.missions.rejected + payloadFails },
                  rejections := { res0.rejections with
                    payload := res0.rejections.payload + payloadFails } }
                let (acOk, acPool2) := pool.aircraft.tryAcquire ev.time duration 1
                let pool := { pool with aircraft := acPool2 }
                if acOk = false then
                  { pools := updateA s.pools unit (fun _ => pool),
                    results := { res1 with
                      missions := { res1.missions with
                        rejected := res1.missions.rejected + 1 },
                      rejections := { res1.rejections with
                        aircraft := res1.rejections.aircraft + 1 } },
                    rng := rng }
                else
                  let (piOk, piPool2) := crewAcquire pool.pilot ev.time duration needPilot
                  let pool := { pool with pilot := piPool2 }
                  if piOk = false then
                    { pools := updateA s.pools unit (fun _ => pool),
                      results := { res1 with
                        missions := { res1.missions with
                          rejected := res1.missions.rejected + 1 },
                        rejections := { res1.rejections with
                          pilot := res1.rejections.pilot + 1 } },
                      rng := rng }
                  else
                    let (soOk, soPool2) := crewAcquire pool.so ev.time duration needSo
                    let pool := { pool with so := soPool2 }
                    if soOk = false then
                      { pools := updateA s.pools unit (fun _ => pool),
                        results := { res1 with
                          missions := { res1.missions with
                            rejected := res1.missions.rejected + 1 },
                          rejections := { res1.rejections with
                            so := res1.rejections.so + 1 } },
                        rng := rng }
                    else
                      let pool := { pool with
                        missionFinishes := pool.missionFinishes ++ [ev.time + duration] }
                      let t0 := ev.time
                      let t1 := t0 + pre
                      let t2 := t1 + mountTime
                      let t3 := t2 + flight
                      let t4 := t3 + post
                      let t5 := t4 + turnaround
                      let res2 := { res1 with
                        missions := { res1.missions with
                          started := res1.missions.started + 1 },
                        byType := updateA res1.byType mt.name (fun o =>
                          let bt := o.getD ⟨0, 0, 0, 0⟩
                          { bt with requested := bt.requested + 1,
                                    started := bt.started + 1 }),
                        timeline := res1.timeline ++ [TimelineEvent.mission unit mt.name t0 t5
                          [⟨"preflight", t0, t1⟩, ⟨"mount", t1, t2⟩, ⟨"flight", t2, t3⟩,
                           ⟨"postflight", t3, t4⟩, ⟨"turnaround", t4, t5⟩]] }
                      { pools := updateA s.pools unit (fun _ => pool),
                        results := res2,
                        rng := rng }

/-- The event loop (lines 681-687): `continue` on a non-demand event type,
`break` once an event time exceeds the horizon (events at exactly the
horizon are processed). -/
noncomputable def processEvents (ctx : Ctx) : ℕ → List DemandEvent → SimState → SimState
  | _, [], s => s
  | i, ev :: rest, s =>
      if ev.eventType ≠ "mission_demand" then processEvents ctx (i + 1) rest s
      else if ctx.horizon < ev.time then s
      else processEvents ctx (i + 1) rest (handleDemand ctx i ev s)

/-- Number of list elements `≤ bound` (the post-loop completion count
`mission_finishes.iter().filter(|&&t| t <= horizon).count()`). -/
noncomputable def countLe (bound : ℝ) : List ℝ → ℕ
  | [] => 0
  | x :: rest => (if x ≤ bound then 1 else 0) + countLe bound rest

/-- Rust `f64::round`: nearest integer, halves away from zero. -/
noncomputable def rustRound (x : ℝ) : ℤ :=
  if x < 0 then -⌊-x + 1/2⌋ else ⌊x + 1/2⌋

/-- Model of `(x * 1000.0).round() / 1000.0`. -/
noncomputable def round3 (x : ℝ) : ℝ := (rustRound (x * 1000) : ℝ) / 1000

/-- Model of `fn run_simulation_internal_ref`. -/
noncomputable def runSimulationInternalRef (scenario : Scenario) (options : Options)
    (rng : Rng) : Except String Results :=
  let horizon := scenario.horizonHours
  let missionTypes := scenario.missionTypes.foldl
    (fun m mt => updateA m mt.name (fun _ => mt)) []
  let preSpec := scenario.processTimes.bind (·.preflight)
  let postSpec := scenario.processTimes.bind (·.postflight)
  let turnSpec := scenario.processTimes.bind (·.turnaround)
  let mountTimes := scenario.processTimes.bind (·.mountTimes)
  match options.state with
  | none => .error "Simulation requires a valid state snapshot"
  | some state =>
    match deriveInitialFromState state with
    | none => .error "Failed to derive initial resources from state"
    | some initial0 =>
      if initial0.units = [] then .error "No units found in state snapshot"
      else
        let initial :=
          match options.overrides with
          | some ov => applyOverrides scenario initial0 ov
          | none => initial0
        let pools := initial.units.foldl (fun acc unit =>
          let acTotal := (lookupA initial.aircraftByUnit unit).getD 0
          let crew := (lookupA initial.crewByUnit unit).getD ⟨0, 0⟩
          let payloadsMap := ((lookupA initial.payloadByUnit unit).getD []).map
            (fun kv => (kv.1, ResourcePool.new kv.2))
          updateA acc unit (fun _ =>
            UnitPools.mk (ResourcePool.new acTotal) (ResourcePool.new crew.pilot)
              (ResourcePool.new crew.so) payloadsMap [])) []
        let (events, rng) := generateDemand scenario rng
        let ctx : Ctx :=
          { horizon := horizon, missionTypes := missionTypes, preSpec := preSpec,
            postSpec := postSpec, turnSpec := turnSpec, mountTimes := mountTimes,
            unitList := pools.map (·.1),
            missionSplit := scenario.unitPolicy.bind (·.missionSplit) }
        let res0 : Results :=
          { horizonHours := horizon, missions := ⟨0, 0, 0, 0⟩, rejections := ⟨0, 0, 0, 0⟩,
            utilization := [], byType := [], timeline := [], initialResources := initial }
        let sFinal := processEvents ctx 0 events ⟨pools, res0, rng⟩
        let completed := ctx.unitList.foldl (fun acc unit =>
          match lookupA sFinal.pools unit with
          | some up => acc + countLe horizon up.missionFinishes
          | none => acc) sFinal.results.missions.completed
        let byType2 := sFinal.results.timeline.foldl (fun bt item =>
          match item with
          | TimelineEvent.mission _ mtName _ finishTime _ =>
              if finishTime ≤ horizon then
                updateA bt mtName (fun o =>
                  let b := o.getD ⟨0, 0, 0, 0⟩
                  { b with completed := b.completed + 1 })
              else bt
          | _ => bt) sFinal.results.byType
        let util := ctx.unitList.foldl (fun acc unit =>
          match lookupA sFinal.pools unit with
          | some up =>
              updateA acc unit (fun _ =>
                Utilization.mk (round3 (up.aircraft.utilization horizon))
                  (round3 (up.pilot.utilization horizon))
                  (round3 (up.so.utilization horizon)))
          | none => acc) sFinal.results.utilization
        .ok { sFinal.results with
          missions := { sFinal.results.missions with completed := completed },
          byType := byType2,
          utilization := util }

/-- Model of `fn run_simulation_internal` (by-value wrapper). -/
noncomputable def runSimulationInternal (scenario : Scenario) (options : Options)
    (rng : Rng) : Except String Results :=
  runSimulationInternalRef scenario options rng

/-! ## Monte Carlo statistics (`monte/src/lib.rs`)

`DefaultHasher` values are consumed only through `% n`; the two hashing
steps of `ReservoirSampler::update` (hash of `count`, hash of
`(count, 0xdeadbeef)`) are therefore modelled as two arbitrary functions
`h1 h2 : ℕ → ℕ` fixed for a whole run. -/

/-- Model of `struct AggregatedStatistics`. -/
structure AggregatedStatistics where
  mean : ℝ
  p10 : ℝ
  p25 : ℝ
  p50 : ℝ
  p75 : ℝ
  p90 : ℝ
  p95 : ℝ
  p99 : ℝ
  minv : ℝ
  maxv : ℝ
  stddev : ℝ

/-- Model of `struct WelfordAccumulator`.  The `f64::INFINITY` /
`f64::NEG_INFINITY` initial extrema are modelled as `none` (every finite
value compares below / above them, exactly as in the source). -/
structure WelfordAccumulator where
  count : ℕ
  mean : ℝ
  m2 : ℝ
  minv : Option ℝ
  maxv : Option ℝ

/-- Model of `WelfordAccumulator::new`. -/
def WelfordAccumulator.new : WelfordAccumulator :=
  { count := 0, mean := 0, m2 := 0, minv := none, maxv := none }

/-- Model of `WelfordAccumulator::update`. -/
noncomputable def WelfordAccumulator.update (w : WelfordAccumulator)
    (value : ℝ) : WelfordAccumulator :=
  let count := w.count + 1
  let delta := value - w.mean
  let mean := w.mean + delta / count
  let delta2 := value - mean
  let m2 := w.m2 + delta * delta2
  let minv := match w.minv with
    | none => some value
    | some m => if value < m then some value else some m
  let maxv := match w.maxv with
    | none => some value
    | some m => if m < value then some value else some m
  { count := count, mean := mean, m2 := m2, minv := minv, maxv := maxv }

/-- Model of `WelfordAccumulator::variance`. -/
noncomputable def WelfordAccumulator.variance (w : WelfordAccumulator) : ℝ :=
  if w.count < 2 then 0 else w.m2 / ((w.count : ℝ) - 1)

/-- Model of `WelfordAccumulator::stddev`. -/
noncomputable def WelfordAccumulator.stddev (w : WelfordAccumulator) : ℝ :=
  Real.sqrt w.variance

/-- Model of `struct ReservoirSampler`. -/
structure ReservoirSampler where
  sample : List ℝ
  count : ℕ
  capacity : ℕ

/-- Model of `ReservoirSampler::new`. -/
def ReservoirSampler.new (capacity : ℕ) : ReservoirSampler :=
  { sample := [], count := 0, capacity := capacity }

/-- Model of `ReservoirSampler::update` (Algorithm R with the hash-based random
source; `count` is the incremented counter `self.count + 1`, the
replacement draw is `hash(count) % count` and the replacement index is
`hash((count, 0xdeadbeef)) % capacity`). -/
def ReservoirSampler.update (h1 h2 : ℕ → ℕ) (rs : ReservoirSampler)
    (value : ℝ) : ReservoirSampler :=
  if rs.sample.length < rs.capacity then
    { rs with count := rs.count + 1, sample := rs.sample ++ [value] }
  else if h1 (rs.count + 1) % (rs.count + 1) < rs.capacity then
    { rs with count := rs.count + 1,
              sample := rs.sample.set (h2 (rs.count + 1) % rs.capacity) value }
  else { rs with count := rs.count + 1 }

/-- The percentile of a stored sample at level `p`
(`ReservoirSampler::percentiles` computes this value for each requested
level; the `HashMap` of levels is modelled by this per-level function, and
the `unwrap_or(0.0)` fallback of `finalize` is reached exactly when the
sample is empty). -/
noncomputable def percentileOf (sample : List ℝ) (p : ℕ) : ℝ :=
  if sample = [] then 0
  else
    let sorted := sample.insertionSort (· ≤ ·)
    let index := ⌈(p : ℝ) / 100 * sample.length⌉₊ - 1
    let idx := min index (sample.length - 1)
    sorted.getD idx 0

/-- Model of `ReservoirSampler::percentiles` at one level. -/
noncomputable def ReservoirSampler.percentileAt (rs : ReservoirSampler) (p : ℕ) : ℝ :=
  percentileOf rs.sample p

/-- Model of `(x * 100.0).round() / 100.0`. -/
noncomputable def round2 (x : ℝ) : ℝ := (rustRound (x * 100) : ℝ) / 100

/-- Model of `struct StreamingStatistics`. -/
structure StreamingStatistics where
  welford : WelfordAccumulator
  reservoir : ReservoirSampler

/-- Model of `StreamingStatistics::new` (reservoir capacity 1000). -/
def StreamingStatistics.new : StreamingStatistics :=
  { welford := WelfordAccumulator.new, reservoir := ReservoirSampler.new 1000 }

/-- Model of `StreamingStatistics::update`. -/
noncomputable def StreamingStatistics.update (h1 h2 : ℕ → ℕ) (st : StreamingStatistics)
    (value : ℝ) : StreamingStatistics :=
  { welford := st.welford.update value,
    reservoir := st.reservoir.update h1 h2 value }

/-- Model of `StreamingStatistics::finalize`. -/
noncomputable def StreamingStatistics.finalize (st : StreamingStatistics) :
    Option AggregatedStatistics :=
  if st.welford.count = 0 then none
  else
    some { mean := round2 st.welford.mean,
           p10 := st.reservoir.percentileAt 10,
           p25 := st.reservoir.percentileAt 25,
           p50 := st.reservoir.percentileAt 50,
           p75 := st.reservoir.percentileAt 75,
           p90 := st.reservoir.percentileAt 90,
           p95 := st.reservoir.percentileAt 95,
           p99 := st.reservoir.percentileAt 99,
           minv := st.welford.minv.getD 0,
           maxv := st.welford.maxv.getD 0,
           stddev := round2 st.welford.stddev }

/-- Model of `struct StreamingAggregator`. -/
structure StreamingAggregator where
  missions : List (String × StreamingStatistics)
  rejections : List (String × StreamingStatistics)
  utilization : List (String × List (String × StreamingStatistics))
  byType : List (String × List (String × StreamingStatistics))

/-- Model of `StreamingAggregator::new`. -/
def StreamingAggregator.new : StreamingAggregator :=
  { missions := [], rejections := [], utilization := [], byType := [] }

/-- Model of `entry(key).or_insert_with(StreamingStatistics::new).update(value)`. -/
noncomputable def bumpStat (h1 h2 : ℕ → ℕ) (m : List (String × StreamingStatistics))
    (key : String) (value : ℝ) : List (String × StreamingStatistics) :=
  updateA m key (fun o => (o.getD StreamingStatistics.new).update h1 h2 value)

/-- Model of `StreamingAggregator::process_iteration`. -/
noncomputable def StreamingAggregator.processIteration (h1 h2 : ℕ → ℕ)
    (agg : StreamingAggregator) (result : Results) : StreamingAggregator :=
  let missions := bumpStat h1 h2 agg.missions "requested" result.missions.requested
  let missions := bumpStat h1 h2 missions "started" result.missions.started
  let missions := bumpStat h1 h2 missions "completed" result.missions.completed
  let missions := bumpStat h1 h2 missions "rejected" result.missions.rejected
  let rejections := bumpStat h1 h2 agg.rejections "aircraft" result.rejections.aircraft
  let rejections := bumpStat h1 h2 rejections "pilot" result.rejections.pilot
  let rejections := bumpStat h1 h2 rejections "so" result.rejections.so
  let rejections := bumpStat h1 h2 rejections "payload" result.rejections.payload
  let utilization := result.utilization.foldl (fun acc kv =>
    updateA acc kv.1 (fun o =>
      let unitStats := o.getD []
      let unitStats := bumpStat h1 h2 unitStats "aircraft" kv.2.aircraft
      let unitStats := bumpStat h1 h2 unitStats "pilot" kv.2.pilot
      bumpStat h1 h2 unitStats "so" kv.2.so)) agg.utilization
  let byType := result.byType.foldl (fun acc kv =>
    updateA acc kv.1 (fun o =>
      let mtStats := o.getD []
      let mtStats := bumpStat h1 h2 mtStats "requested" kv.2.requested
      let mtStats := bumpStat h1 h2 mtStats "started" kv.2.started
      let mtStats := bumpStat h1 h2 mtStats "completed" kv.2.completed
      bumpStat h1 h2 mtStats "rejected" kv.2.rejected)) agg.byType
  { missions := missions, rejections := rejections,
    utilization := utilization, byType := byType }

/-- Model of `filter_map(|(k, v)| v.finalize().map(|s| (k, s)))`. -/
noncomputable def finalizeMap (m : List (String × StreamingStatistics)) :
    List (String × AggregatedStatistics) :=
  m.filterMap (fun kv => (kv.2.finalize).map (fun s => (kv.1, s)))

/-- Finalization of a nested map, dropping empty inner maps. -/
noncomputable def finalizeNested (m : List (String × List (String × StreamingStatistics))) :
    List (String × List (String × AggregatedStatistics)) :=
  (m.map (fun kv => (kv.1, finalizeMap kv.2))).filter (fun kv => !kv.2.isEmpty)

/-- Model of `struct MonteCarloOptions`. -/
structure MonteCarloOptions where
  iterations : Option ℕ := none
  keepIterations : Option Bool := none
  state : Option State := none
  overrides : Option Overrides := none

/-- Model of `struct MonteCarloResults`. -/
structure MonteCarloResults where
  iterations : ℕ
  horizonHours : ℝ
  missions : List (String × AggregatedStatistics)
  rejections : List (String × AggregatedStatistics)
  utilization : List (String × List (String × AggregatedStatistics))
  byType : List (String × List (String × AggregatedStatistics))
  iterationsData : Option (List Results)
  initialResources : InitialResources

/-- Model of `fn run_monte_carlo_internal` (`monte/src/lib.rs`, lines 625-741).
The rayon `try_for_each` over `0..iterations` is modelled as a sequential
fold in iteration order (the aggregator updates commute over iterations up
to the reservoir randomness, and task-completion order is unobservable);
`rngs i` is the thread-local RNG stream of iteration `i`, and thread-pool
construction is modelled as succeeding. -/
noncomputable def runMonteCarloInternal (scenario : Scenario) (options : MonteCarloOptions)
    (h1 h2 : ℕ → ℕ) (rngs : ℕ → Rng) : Except String MonteCarloResults :=
  let iterations := options.iterations.getD 1000
  let keepIterations := options.keepIterations.getD false
  let desOptions : Options := { state := options.state, overrides := options.overrides }
  let step : StreamingAggregator × Option Results × List Results → ℕ →
      Except String (StreamingAggregator × Option Results × List Results) :=
    fun acc i =>
      match runSimulationInternalRef scenario desOptions (rngs i) with
      | .error e => .error ("DES simulation failed at iteration " ++ toString i ++ ": " ++ e)
      | .ok result =>
          let (agg, first, stored) := acc
          let first := match first with
            | none => some result
            | some r => some r
          let agg := agg.processIteration h1 h2 result
          let stored := if keepIterations then stored ++ [result] else stored
          .ok (agg, first, stored)
  match (List.range iterations).foldlM step (StreamingAggregator.new, none, []) with
  | .error e => .error e
  | .ok (agg, first, stored) =>
      let missions := finalizeMap agg.missions
      let rejections := finalizeMap agg.rejections
      let utilization := finalizeNested agg.utilization
      let byType := finalizeNested agg.byType
      match first with
      | none => .error "No iterations completed"
      | some fr =>
          .ok { iterations := iterations, horizonHours := scenario.horizonHours,
                missions := missions, rejections := rejections,
                utilization := utilization, byType := byType,
                iterationsData := if keepIterations then some stored else none,
                initialResources := fr.initialResources }

/-! ## Claim C2: `sample_dist` fallback behaviour -/

/-- Claim C2, counterexample.  The claim states that a descriptor with a
missing required parameter samples to 0 for every random source; but an
`exponential` descriptor with no rate falls back to rate 1 and draws: with
the single uniform draw `1 - exp(-1)` the sample is `1`, not `0`. -/
theorem C2_counterexample :
    (sampleDist { distType := "exponential" } [1 - Real.exp (-1)]).1 = 1 ∧ (1:ℝ) ≠ 0 := by
  constructor
  · show -Real.log (1 - (1 - Real.exp (-1))) / 1 = 1
    rw [show (1:ℝ) - (1 - Real.exp (-1)) = Real.exp (-1) by ring, Real.log_exp]
    norm_num
  · norm_num

/-- Claim C2, amended: for every random source, `sample_dist` returns 0 for
an unknown variant tag, for `deterministic` with both value fields absent,
and for `triangular` with any of `a`, `m`, `b` absent.  (`exponential`
missing its rate falls back to rate 1 and samples; `lognormal` missing
`mu`/`sigma` falls back to `mu = 0`, `sigma = 1` and samples.) -/
theorem C2_sample_dist_fallbacks (dist : Distribution) (rng : Rng) :
    (dist.distType ∉ ["deterministic", "exponential", "triangular", "lognormal"] →
      sampleDist dist rng = (0, rng)) ∧
    (dist.distType = "deterministic" → dist.valueHours = none → dist.value = none →
      sampleDist dist rng = (0, rng)) ∧
    (dist.distType = "triangular" → (dist.a = none ∨ dist.m = none ∨ dist.b = none) →
      sampleDist dist rng = (0, rng)) := by
  obtain ⟨tag, vh, v, rph, r, a, m, b, mu, sigma⟩ := dist
  refine ⟨?_, ?_, ?_⟩
  · intro hmem
    simp only [List.mem_cons, List.mem_singleton, not_or] at hmem
    obtain ⟨h1, h2, h3, h4⟩ := hmem
    unfold sampleDist
    split
    · simp_all
    · simp_all
    · simp_all
    · simp_all
    · rfl
  · intro htag hvh hv
    subst htag hvh hv
    simp [sampleDist]
  · intro htag hmiss
    subst htag
    rcases a with _ | av <;> rcases m with _ | mv <;> rcases b with _ | bv <;>
      simp_all [sampleDist]

/-- Claim C2, witness: the amended theorem applied to an unknown variant,
a value-less `deterministic` and a parameter-less `triangular`. -/
theorem C2_witness :
    sampleDist { distType := "custom" } [] = ((0:ℝ), ([] : List ℝ)) ∧
    sampleDist { distType := "deterministic" } [] = ((0:ℝ), ([] : List ℝ)) ∧
    sampleDist { distType := "triangular" } [] = ((0:ℝ), ([] : List ℝ)) :=
  ⟨(C2_sample_dist_fallbacks { distType := "custom" } []).1 (by decide),
   (C2_sample_dist_fallbacks { distType := "deterministic" } []).2.1 rfl rfl rfl,
   (C2_sample_dist_fallbacks { distType := "triangular" } []).2.2 rfl (Or.inl rfl)⟩

/-! ## Claim C9: zero Monte Carlo iterations -/

/-- Claim C9: `run_monte_carlo_internal` with `iterations = 0` runs no DES
iterations, so the first-result slot stays empty and the function returns
the error `"No iterations completed"` instead of a populated result. -/
theorem C9_zero_iterations_error (scenario : Scenario) (options : MonteCarloOptions)
    (h1 h2 : ℕ → ℕ) (rngs : ℕ → Rng) (h : options.iterations = some 0) :
    runMonteCarloInternal scenario options h1 h2 rngs = .error "No iterations completed" := by
  unfold runMonteCarloInternal
  rw [h]
  simp [pure, Except.pure]

/-- Claim C9, witness: a concrete zero-iteration invocation. -/
theorem C9_witness :
    runMonteCarloInternal { horizonHours := 0, demand := [], missionTypes := [] }
      { iterations := some 0 } id id (fun _ => []) = .error "No iterations completed" :=
  C9_zero_iterations_error _ _ _ _ _ rfl

/-! ## Resource-pool lemmas -/

theorem partitionPointLe_le_length (bound : ℝ) (l : List ℝ) :
    partitionPointLe bound l ≤ l.length := by
  induction l with
  | nil => simp [partitionPointLe]
  | cons x rest ih =>
    unfold partitionPointLe
    split
    · simpa using ih
    · simp

theorem mem_take_partitionPointLe (bound : ℝ) (l : List ℝ) :
    ∀ x ∈ l.take (partitionPointLe bound l), x ≤ bound := by
  induction l with
  | nil => simp
  | cons y rest ih =>
    unfold partitionPointLe
    split
    · intro x hx
      rcases List.mem_cons.mp (by simpa using hx) with h | h
      · subst h; assumption
      · exact ih x h
    · simp

theorem mem_drop_partitionPointLe (bound : ℝ) (l : List ℝ)
    (hs : l.Sorted (· ≤ ·)) :
    ∀ x ∈ l.drop (partitionPointLe bound l), bound < x := by
  induction l with
  | nil => simp
  | cons y rest ih =>
    unfold partitionPointLe
    split
    · intro x hx
      exact ih (List.Sorted.of_cons hs) x (by simpa using hx)
    · rename_i hy
      push_neg at hy
      intro x hx
      rcases List.mem_cons.mp (by simpa using hx) with h | h
      · subst h; exact hy
      · exact lt_of_lt_of_le hy ((List.sorted_cons.mp hs).1 x h)

/-- Sorted insertion of `k` copies of `rt` at the partition point keeps the
list sorted. -/
theorem sorted_insert_replicate (rt : ℝ) (k : ℕ) (l : List ℝ)
    (hs : l.Sorted (· ≤ ·)) :
    (l.take (partitionPointLe rt l) ++ List.replicate k rt ++
      l.drop (partitionPointLe rt l)).Sorted (· ≤ ·) := by
  set pos := partitionPointLe rt l with hpos
  have htake : (l.take pos).Sorted (· ≤ ·) :=
    hs.sublist (List.take_sublist pos l)
  have hdrop : (l.drop pos).Sorted (· ≤ ·) :=
    hs.sublist (List.drop_sublist pos l)
  have hrep : (List.replicate k rt).Sorted (· ≤ ·) :=
    List.pairwise_replicate.mpr (Or.inr le_rfl)
  rw [List.append_assoc]
  refine List.pairwise_append.mpr ⟨htake, List.pairwise_append.mpr ⟨hrep, hdrop, ?_⟩, ?_⟩
  · intro a ha b hb
    have ha' : a = rt := List.eq_of_mem_replicate ha
    rw [ha']
    exact le_of_lt (mem_drop_partitionPointLe rt l hs b hb)
  · intro a ha b hb
    have ha' : a ≤ rt := mem_take_partitionPointLe rt l a ha
    rcases List.mem_append.mp hb with h | h
    · have : b = rt := List.eq_of_mem_replicate h
      subst this; exact ha'
    · exact le_trans ha' (le_of_lt (mem_drop_partitionPointLe rt l hs b h))

/-- The inserted list is a permutation of the old elements plus the new
copies. -/
theorem insert_replicate_perm (rt : ℝ) (k : ℕ) (l : List ℝ) (pos : ℕ) :
    (l.take pos ++ List.replicate k rt ++ l.drop pos).Perm
      (l ++ List.replicate k rt) := by
  rw [List.append_assoc]
  have h2 : (List.replicate k rt ++ l.drop pos).Perm (l.drop pos ++ List.replicate k rt) :=
    List.perm_append_comm
  have h3 := List.Perm.append_left (l.take pos) h2
  have h4 : l.take pos ++ (l.drop pos ++ List.replicate k rt)
      = (l.take pos ++ l.drop pos) ++ List.replicate k rt := by
    rw [List.append_assoc]
  rw [h4, List.take_append_drop] at h3
  exact h3

/-- Model of `available_at` only drops a prefix of the release list and never touches
the capacity or the counters; the returned count is the capacity minus the
surviving holds. -/
theorem availableAt_frame (p : ResourcePool) (t : ℝ) :
    ((p.availableAt t).2).total = p.total ∧
    ((p.availableAt t).2).busyTime = p.busyTime ∧
    ((p.availableAt t).2).allocations = p.allocations ∧
    ((p.availableAt t).2).denials = p.denials ∧
    (∃ n, ((p.availableAt t).2).held = p.held.drop n) ∧
    (p.availableAt t).1 = ((p.availableAt t).2).total - ((p.availableAt t).2).held.length := by
  simp only [ResourcePool.availableAt]
  split
  · exact ⟨rfl, rfl, rfl, rfl, ⟨partitionPointLe t p.held, rfl⟩, by trivial⟩
  · exact ⟨rfl, rfl, rfl, rfl, ⟨0, by simp⟩, by trivial⟩

/-- Sortedness survives `available_at`. -/
theorem availableAt_sorted (p : ResourcePool) (t : ℝ)
    (hs : p.held.Sorted (· ≤ ·)) :
    ((p.availableAt t).2).held.Sorted (· ≤ ·) := by
  obtain ⟨-, -, -, -, ⟨n, hn⟩, -⟩ := availableAt_frame p t
  rw [hn]
  exact hs.sublist (List.drop_sublist n p.held)

/-- Full behavioural description of `try_acquire` on a sorted pool. -/
theorem tryAcquire_spec (p : ResourcePool) (t d : ℝ) (k : ℕ)
    (hs : p.held.Sorted (· ≤ ·)) :
    (k ≤ (p.availableAt t).1 →
      (p.tryAcquire t d k).1 = true ∧
      ((p.tryAcquire t d k).2).held.Sorted (· ≤ ·) ∧
      ((p.tryAcquire t d k).2).held.Perm
        (((p.availableAt t).2).held ++ List.replicate k (t + d)) ∧
      ((p.tryAcquire t d k).2).busyTime = ((p.availableAt t).2).busyTime + d * k ∧
      ((p.tryAcquire t d k).2).allocations = ((p.availableAt t).2).allocations + k ∧
      ((p.tryAcquire t d k).2).denials = ((p.availableAt t).2).denials ∧
      ((p.tryAcquire t d k).2).total = ((p.availableAt t).2).total) ∧
    ((p.availableAt t).1 < k →
      (p.tryAcquire t d k).1 = false ∧
      (p.tryAcquire t d k).2 =
        { (p.availableAt t).2 with denials := ((p.availableAt t).2).denials + k }) := by
  have hsorted : ((p.availableAt t).2).held.Sorted (· ≤ ·) := availableAt_sorted p t hs
  have heq : p.tryAcquire t d k =
      if k ≤ (p.availableAt t).1 then
        (true,
         { (p.availableAt t).2 with
             held := ((p.availableAt t).2).held.take
                 (partitionPointLe (t + d) ((p.availableAt t).2).held)
               ++ List.replicate k (t + d)
               ++ ((p.availableAt t).2).held.drop
                 (partitionPointLe (t + d) ((p.availableAt t).2).held),
             allocations := ((p.availableAt t).2).allocations + k,
             busyTime := ((p.availableAt t).2).busyTime + d * (k : ℝ) })
      else (false, { (p.availableAt t).2 with denials := ((p.availableAt t).2).denials + k }) := by
    unfold ResourcePool.tryAcquire
    rcases hav : p.availableAt t with ⟨avail, cleaned⟩
    rfl
  constructor
  · intro hk
    rw [heq, if_pos hk]
    refine ⟨rfl, ?_, ?_, rfl, rfl, rfl, rfl⟩
    · exact sorted_insert_replicate (t + d) k _ hsorted
    · exact insert_replicate_perm (t + d) k _ _
  · intro hk
    rw [heq, if_neg (by omega)]
    exact ⟨rfl, rfl⟩

/-- Claim C4: on a pool whose release list is sorted (the pool invariant),
`try_acquire(t, d, k)` first performs the `available_at` cleanup; if the
free count is at least `k` it inserts `k` copies of `t + d` at the sorted
position (the new list is sorted and is a permutation of the cleaned list
plus the copies), adds `d·k` to the busy time and `k` to the allocation
counter, leaves the denial counter alone and returns `true`; otherwise it
returns `false` and leaves everything except the denial counter (which
grows by `k`) as the cleanup left it. -/
theorem C4_try_acquire_spec (p : ResourcePool) (t d : ℝ) (k : ℕ)
    (hs : p.held.Sorted (· ≤ ·)) :
    (k ≤ (p.availableAt t).1 →
      (p.tryAcquire t d k).1 = true ∧
      ((p.tryAcquire t d k).2).held.Sorted (· ≤ ·) ∧
      ((p.tryAcquire t d k).2).held.Perm
        (((p.availableAt t).2).held ++ List.replicate k (t + d)) ∧
      ((p.tryAcquire t d k).2).busyTime = ((p.availableAt t).2).busyTime + d * k ∧
      ((p.tryAcquire t d k).2).allocations = ((p.availableAt t).2).allocations + k ∧
      ((p.tryAcquire t d k).2).denials = ((p.availableAt t).2).denials ∧
      ((p.tryAcquire t d k).2).total = ((p.availableAt t).2).total) ∧
    ((p.availableAt t).1 < k →
      (p.tryAcquire t d k).1 = false ∧
      (p.tryAcquire t d k).2 =
        { (p.availableAt t).2 with denials := ((p.availableAt t).2).denials + k }) :=
  tryAcquire_spec p t d k hs

/-- Claim C4, witness: a fresh pool of capacity 1 accepts
`try_acquire(0, 2, 1)`, and a fresh pool of capacity 0 denies it. -/
theorem C4_witness :
    (((ResourcePool.new 1).tryAcquire 0 2 1).1 = true ∧
      ((ResourcePool.new 1).tryAcquire 0 2 1).2.busyTime =
        (((ResourcePool.new 1).availableAt 0).2).busyTime + 2 * ((1:ℕ) : ℝ)) ∧
    (((ResourcePool.new 0).tryAcquire 0 2 1).1 = false) := by
  have h1 := (C4_try_acquire_spec (ResourcePool.new 1) 0 2 1 (by simp [ResourcePool.new])).1
    (by simp [ResourcePool.new, ResourcePool.availableAt, ResourcePool.cleanupDue,
      partitionPointLe])
  have h2 := (C4_try_acquire_spec (ResourcePool.new 0) 0 2 1 (by simp [ResourcePool.new])).2
    (by simp [ResourcePool.new, ResourcePool.availableAt, ResourcePool.cleanupDue,
      partitionPointLe])
  exact ⟨⟨h1.1, h1.2.2.2.1⟩, h2.1⟩

/-! ## Claim C5: pool invariants over operation sequences -/

/-- A pool operation: an availability query or an acquisition attempt. -/
inductive PoolOp where
  | availAt (t : ℝ)
  | tryAcq (t d : ℝ) (k : ℕ)

/-- State change of one operation. -/
noncomputable def applyOp (p : ResourcePool) : PoolOp → ResourcePool
  | .availAt t => (p.availableAt t).2
  | .tryAcq t d k => (p.tryAcquire t d k).2

/-- State change of a sequence of operations. -/
noncomputable def applyOps (p : ResourcePool) : List PoolOp → ResourcePool
  | [] => p
  | op :: rest => applyOps (applyOp p op) rest

/-- The busy-time contribution `d·k` of one operation, counted only when
the acquisition is accepted. -/
noncomputable def opBusyDelta (p : ResourcePool) : PoolOp → ℝ
  | .availAt _ => 0
  | .tryAcq t d k => if k ≤ (p.availableAt t).1 then d * k else 0

/-- Sum of `d·k` over the accepted acquisitions of a replayed sequence. -/
noncomputable def acceptedSum (p : ResourcePool) : List PoolOp → ℝ
  | [] => 0
  | op :: rest => opBusyDelta p op + acceptedSum (applyOp p op) rest

theorem applyOps_append (p : ResourcePool) (l1 l2 : List PoolOp) :
    applyOps p (l1 ++ l2) = applyOps (applyOps p l1) l2 := by
  induction l1 generalizing p with
  | nil => rfl
  | cons op rest ih => simp [applyOps, ih]

/-- One-step preservation of the pool invariant. -/
theorem applyOp_invariant (p : ResourcePool) (op : PoolOp)
    (hs : p.held.Sorted (· ≤ ·)) (hlen : p.held.length ≤ p.total) :
    (applyOp p op).held.Sorted (· ≤ ·) ∧
    (applyOp p op).held.length ≤ (applyOp p op).total ∧
    (applyOp p op).total = p.total ∧
    (applyOp p op).busyTime = p.busyTime + opBusyDelta p op ∧
    p.allocations ≤ (applyOp p op).allocations ∧
    p.denials ≤ (applyOp p op).denials := by
  cases op with
  | availAt t =>
      obtain ⟨htot, hbusy, halloc, hden, ⟨n, hheld⟩, -⟩ := availableAt_frame p t
      simp only [applyOp]
      refine ⟨availableAt_sorted p t hs, ?_, htot, ?_, le_of_eq halloc.symm, le_of_eq hden.symm⟩
      · rw [htot, hheld]
        exact le_trans (by simpa using List.length_le_of_sublist (List.drop_sublist n p.held))
          hlen
      · simp [opBusyDelta, hbusy]
  | tryAcq t d k =>
      simp only [applyOp]
      obtain ⟨htot, hbusy, halloc, hden, ⟨n, hheld⟩, havail⟩ := availableAt_frame p t
      have hclen : ((p.availableAt t).2).held.length ≤ p.total := by
        rw [hheld]
        exact le_trans (by simpa using List.length_le_of_sublist (List.drop_sublist n p.held))
          hlen
      by_cases hk : k ≤ (p.availableAt t).1
      · obtain ⟨-, hsort', hperm, hbusy', halloc', hden', htot'⟩ :=
          (tryAcquire_spec p t d k hs).1 hk
        have hlen' : ((p.tryAcquire t d k).2).held.length =
            ((p.availableAt t).2).held.length + k := by
          rw [hperm.length_eq]; simp
        refine ⟨hsort', ?_, ?_, ?_, ?_, ?_⟩
        · show ((p.tryAcquire t d k).2).held.length ≤ ((p.tryAcquire t d k).2).total
          rw [hlen', htot', htot]
          rw [havail, htot] at hk
          omega
        · show ((p.tryAcquire t d k).2).total = p.total
          rw [htot', htot]
        · show ((p.tryAcquire t d k).2).busyTime = p.busyTime + opBusyDelta p (.tryAcq t d k)
          rw [hbusy', hbusy, opBusyDelta, if_pos hk]
        · show p.allocations ≤ ((p.tryAcquire t d k).2).allocations
          rw [halloc', halloc]; omega
        · show p.denials ≤ ((p.tryAcquire t d k).2).denials
          rw [hden', hden]
      · obtain ⟨-, heq⟩ := (tryAcquire_spec p t d k hs).2 (by omega)
        refine ⟨?_, ?_, ?_, ?_, ?_, ?_⟩ <;>
          simp only [applyOp, heq]
        · exact availableAt_sorted p t hs
        · rw [htot]; exact hclen
        · exact htot
        · rw [hbusy, opBusyDelta, if_neg hk, add_zero]
        · rw [halloc]
        · rw [hden]; omega

/-- Whole-sequence preservation of the pool invariant. -/
theorem applyOps_invariant (ops : List PoolOp) (p : ResourcePool)
    (hs : p.held.Sorted (· ≤ ·)) (hlen : p.held.length ≤ p.total) :
    (applyOps p ops).held.Sorted (· ≤ ·) ∧
    (applyOps p ops).held.length ≤ (applyOps p ops).total ∧
    (applyOps p ops).total = p.total ∧
    (applyOps p ops).busyTime = p.busyTime + acceptedSum p ops ∧
    p.allocations ≤ (applyOps p ops).allocations ∧
    p.denials ≤ (applyOps p ops).denials := by
  induction ops generalizing p with
  | nil => exact ⟨hs, hlen, rfl, by simp [applyOps, acceptedSum], le_rfl, le_rfl⟩
  | cons op rest ih =>
      obtain ⟨hs1, hlen1, htot1, hbusy1, halloc1, hden1⟩ := applyOp_invariant p op hs hlen
      obtain ⟨hs2, hlen2, htot2, hbusy2, halloc2, hden2⟩ := ih (applyOp p op) hs1 hlen1
      refine ⟨hs2, hlen2, by rw [show applyOps p (op :: rest) = applyOps (applyOp p op) rest
        from rfl, htot2, htot1], ?_, le_trans halloc1 halloc2, le_trans hden1 hden2⟩
      show (applyOps (applyOp p op) rest).busyTime = p.busyTime + acceptedSum p (op :: rest)
      rw [hbusy2, hbusy1, acceptedSum]
      ring

/-- Claim C5: starting from `ResourcePool::new(C)`, after any sequence of
`available_at` / `try_acquire` operations the release list is sorted
ascending and holds at most `C` entries, the busy time equals the sum of
`d·k` over the accepted acquisitions of the sequence, and the allocation
and denial counters are nondecreasing along the sequence (every prefix has
counters bounded by the full sequence's). -/
theorem C5_pool_invariant_sequences (C : ℕ) (ops : List PoolOp) :
    (applyOps (ResourcePool.new C) ops).held.Sorted (· ≤ ·) ∧
    (applyOps (ResourcePool.new C) ops).held.length ≤ C ∧
    (applyOps (ResourcePool.new C) ops).busyTime = acceptedSum (ResourcePool.new C) ops ∧
    (∀ ops1 ops2, ops = ops1 ++ ops2 →
      (applyOps (ResourcePool.new C) ops1).allocations ≤
        (applyOps (ResourcePool.new C) ops).allocations ∧
      (applyOps (ResourcePool.new C) ops1).denials ≤
        (applyOps (ResourcePool.new C) ops).denials) := by
  have hbase := applyOps_invariant ops (ResourcePool.new C)
    (by simp [ResourcePool.new]) (by simp [ResourcePool.new])
  obtain ⟨hs, hlen, htot, hbusy, -, -⟩ := hbase
  refine ⟨hs, by rw [htot] at hlen; exact hlen,
    by simpa [ResourcePool.new] using hbusy, ?_⟩
  intro ops1 ops2 hsplit
  subst hsplit
  have hmid := applyOps_invariant ops1 (ResourcePool.new C)
    (by simp [ResourcePool.new]) (by simp [ResourcePool.new])
  obtain ⟨hs1, hlen1, -, -, -, -⟩ := hmid
  have htail := applyOps_invariant ops2 (applyOps (ResourcePool.new C) ops1) hs1 hlen1
  rw [applyOps_append]
  exact ⟨htail.2.2.2.2.1, htail.2.2.2.2.2⟩

/-- Claim C5, witness: a two-operation sequence on a capacity-1 pool, with
the prefix decomposition discharged definitionally. -/
theorem C5_witness :
    (applyOps (ResourcePool.new 1) [PoolOp.tryAcq 0 2 1, PoolOp.tryAcq 1 3 1]).held.length ≤ 1 ∧
    (applyOps (ResourcePool.new 1) [PoolOp.tryAcq 0 2 1]).allocations ≤
      (applyOps (ResourcePool.new 1) [PoolOp.tryAcq 0 2 1, PoolOp.tryAcq 1 3 1]).allocations := by
  have h := C5_pool_invariant_sequences 1 [PoolOp.tryAcq 0 2 1, PoolOp.tryAcq 1 3 1]
  exact ⟨h.2.1, (h.2.2.2 [PoolOp.tryAcq 0 2 1] [PoolOp.tryAcq 1 3 1] rfl).1⟩

/-! ## Claim C7: `utilization` -/

theorem round3_mem_unit {x : ℝ} (h0 : 0 ≤ x) (h1 : x ≤ 1) :
    0 ≤ round3 x ∧ round3 x ≤ 1 := by
  have hnotlt : ¬ x * 1000 < 0 := not_lt.mpr (by nlinarith)
  have hr : rustRound (x * 1000) = ⌊x * 1000 + 1/2⌋ := by
    rw [rustRound, if_neg hnotlt]
  have hlow : (0:ℤ) ≤ ⌊x * 1000 + 1/2⌋ := by
    apply Int.le_floor.mpr
    push_cast
    nlinarith
  have hhigh : ⌊x * 1000 + 1/2⌋ ≤ 1000 := by
    have step : ⌊x * 1000 + 1/2⌋ ≤ ⌊(1000.5:ℝ)⌋ := Int.floor_le_floor (by nlinarith)
    have : ⌊(1000.5:ℝ)⌋ = 1000 := by norm_num
    omega
  unfold round3
  rw [hr]
  constructor
  · apply div_nonneg _ (by norm_num)
    exact_mod_cast hlow
  · rw [div_le_one (by norm_num)]
    exact_mod_cast hhigh

/-- Claim C7, amended: `utilization(H)` returns 0 when the capacity is 0 or
the horizon is nonpositive and `min(1, B/(C·H))` otherwise; whenever the
accumulated busy time is nonnegative (as with nonnegative sampled
durations), the value and its 3-decimal rounding (the per-unit value stored
in the DES results) lie in `[0, 1]`.  (Unconditionally the claim is false:
a negative deterministic duration makes the stored value negative, see the
counterexample.) -/
theorem C7_utilization_spec (pool : ResourcePool) (horizonHours : ℝ) :
    (pool.utilization horizonHours =
      if pool.total = 0 ∨ horizonHours ≤ 0 then 0
      else min (pool.busyTime / (pool.total * horizonHours)) 1) ∧
    (0 ≤ pool.busyTime →
      0 ≤ pool.utilization horizonHours ∧ pool.utilization horizonHours ≤ 1 ∧
      0 ≤ round3 (pool.utilization horizonHours) ∧
      round3 (pool.utilization horizonHours) ≤ 1) := by
  refine ⟨rfl, ?_⟩
  intro hbusy
  have hmem : 0 ≤ pool.utilization horizonHours ∧ pool.utilization horizonHours ≤ 1 := by
    unfold ResourcePool.utilization
    split
    · norm_num
    · rename_i h
      push_neg at h
      obtain ⟨h1, h2⟩ := h
      have htot : (0:ℝ) < pool.total := by
        exact_mod_cast Nat.pos_of_ne_zero h1
      have hhor : (0:ℝ) < horizonHours := h2
      constructor
      · exact le_min (div_nonneg hbusy (le_of_lt (mul_pos htot hhor))) (by norm_num)
      · exact min_le_right _ _
  exact ⟨hmem.1, hmem.2, (round3_mem_unit hmem.1 hmem.2).1, (round3_mem_unit hmem.1 hmem.2).2⟩

/-- Claim C7, witness: a pool with capacity 1, busy time 4 and horizon 10
has a rounded utilization in `[0, 1]`. -/
theorem C7_witness :
    0 ≤ round3 ((ResourcePool.mk 1 [] 4 2 0 none).utilization 10) ∧
    round3 ((ResourcePool.mk 1 [] 4 2 0 none).utilization 10) ≤ 1 := by
  have h := (C7_utilization_spec (ResourcePool.mk 1 [] 4 2 0 none) 10).2 (by norm_num)
  exact ⟨h.2.2.1, h.2.2.2⟩

/-! ## Statistics lemmas (claims C8 and C10) -/

theorem percentileOf_mono (sample : List ℝ) (hne : sample ≠ []) {p q : ℕ} (hpq : p ≤ q) :
    percentileOf sample p ≤ percentileOf sample q := by
  unfold percentileOf
  rw [if_neg hne, if_neg hne]
  have hperm := List.perm_insertionSort ((· ≤ ·) : ℝ → ℝ → Prop) sample
  have hlen : (sample.insertionSort (· ≤ ·)).length = sample.length := hperm.length_eq
  have hs : (sample.insertionSort (· ≤ ·)).Sorted (· ≤ ·) :=
    List.sorted_insertionSort _ sample
  have hn : 0 < sample.length := List.length_pos.mpr hne
  have hip : min (⌈(p:ℝ)/100 * sample.length⌉₊ - 1) (sample.length - 1)
      < (sample.insertionSort (· ≤ ·)).length := by rw [hlen]; omega
  have hiq : min (⌈(q:ℝ)/100 * sample.length⌉₊ - 1) (sample.length - 1)
      < (sample.insertionSort (· ≤ ·)).length := by rw [hlen]; omega
  have hcast : (p:ℝ) ≤ (q:ℝ) := by exact_mod_cast hpq
  have hc : ⌈(p:ℝ)/100 * sample.length⌉₊ ≤ ⌈(q:ℝ)/100 * sample.length⌉₊ := by
    apply Nat.ceil_le_ceil
    gcongr
  have hidx : min (⌈(p:ℝ)/100 * sample.length⌉₊ - 1) (sample.length - 1)
      ≤ min (⌈(q:ℝ)/100 * sample.length⌉₊ - 1) (sample.length - 1) := by omega
  rw [List.getD_eq_getElem _ _ hip, List.getD_eq_getElem _ _ hiq]
  exact hs.rel_get_of_le (by exact hidx)

theorem percentileOf_mem (sample : List ℝ) (hne : sample ≠ []) (p : ℕ) :
    percentileOf sample p ∈ sample := by
  unfold percentileOf
  rw [if_neg hne]
  have hperm := List.perm_insertionSort ((· ≤ ·) : ℝ → ℝ → Prop) sample
  have hlen : (sample.insertionSort (· ≤ ·)).length = sample.length := hperm.length_eq
  have hn : 0 < sample.length := List.length_pos.mpr hne
  have hip : min (⌈(p:ℝ)/100 * sample.length⌉₊ - 1) (sample.length - 1)
      < (sample.insertionSort (· ≤ ·)).length := by rw [hlen]; omega
  rw [List.getD_eq_getElem _ _ hip]
  exact hperm.subset (List.getElem_mem hip)

/-- Elements of an updated reservoir come from the old reservoir or are the
new value. -/
theorem reservoir_update_mem (h1 h2 : ℕ → ℕ) (rs : ReservoirSampler) (v x : ℝ)
    (hx : x ∈ (rs.update h1 h2 v).sample) : x ∈ rs.sample ∨ x = v := by
  unfold ReservoirSampler.update at hx
  split at hx
  · rcases List.mem_append.mp hx with h | h
    · exact Or.inl h
    · exact Or.inr (by simpa using h)
  · split at hx
    · exact List.mem_or_eq_of_mem_set hx
    · exact Or.inl hx

/-- A reservoir with positive capacity is nonempty after an update. -/
theorem reservoir_update_ne_nil (h1 h2 : ℕ → ℕ) (rs : ReservoirSampler) (v : ℝ)
    (hcap : 0 < rs.capacity) : (rs.update h1 h2 v).sample ≠ [] := by
  unfold ReservoirSampler.update
  split
  · simp
  · rename_i hfull
    push_neg at hfull
    have hne : rs.sample ≠ [] := by
      intro h
      rw [h] at hfull
      simp at hfull
      omega
    split
    · simpa using hne
    · simpa using hne

/-- Invariant tying a streaming accumulator to the values it has seen. -/
def StreamInv (seen : List ℝ) (st : StreamingStatistics) : Prop :=
  (∀ x ∈ st.reservoir.sample, x ∈ seen) ∧
  (st.reservoir.sample = [] → seen = []) ∧
  (match st.welford.minv with
   | none => seen = []
   | some m => ∀ y ∈ seen, m ≤ y) ∧
  (match st.welford.maxv with
   | none => seen = []
   | some m => ∀ y ∈ seen, y ≤ m) ∧
  0 < st.reservoir.capacity

theorem streamInv_update (h1 h2 : ℕ → ℕ) (seen : List ℝ) (st : StreamingStatistics)
    (hinv : StreamInv seen st) (v : ℝ) :
    StreamInv (seen ++ [v]) (st.update h1 h2 v) := by
  obtain ⟨hsub, hnil, hmin, hmax, hcap⟩ := hinv
  have hcap' : (st.update h1 h2 v).reservoir.capacity = st.reservoir.capacity := by
    unfold StreamingStatistics.update ReservoirSampler.update
    split
    · rfl
    · split <;> rfl
  refine ⟨?_, ?_, ?_, ?_, by rw [hcap']; exact hcap⟩
  · intro x hx
    rcases reservoir_update_mem h1 h2 st.reservoir v x hx with h | h
    · exact List.mem_append.mpr (Or.inl (hsub x h))
    · subst h; simp
  · intro h
    exact absurd h (reservoir_update_ne_nil h1 h2 st.reservoir v hcap)
  · show match (st.welford.update v).minv with
      | none => seen ++ [v] = []
      | some m => ∀ y ∈ seen ++ [v], m ≤ y
    unfold WelfordAccumulator.update
    rcases hw : st.welford.minv with _ | m0
    · rw [hw] at hmin
      simp only [hw]
      intro y hy
      rcases List.mem_append.mp hy with h | h
      · rw [hmin] at h; simp at h
      · simp at h; subst h; exact le_rfl
    · rw [hw] at hmin
      simp only [hw]
      by_cases hvm : v < m0
      · simp only [if_pos hvm]
        intro y hy
        rcases List.mem_append.mp hy with h | h
        · exact le_trans (le_of_lt hvm) (hmin y h)
        · simp at h; subst h; exact le_rfl
      · simp only [if_neg hvm]
        intro y hy
        rcases List.mem_append.mp hy with h | h
        · exact hmin y h
        · simp at h; subst h; exact not_lt.mp hvm
  · show match (st.welford.update v).maxv with
      | none => seen ++ [v] = []
      | some m => ∀ y ∈ seen ++ [v], y ≤ m
    unfold WelfordAccumulator.update
    rcases hw : st.welford.maxv with _ | m0
    · rw [hw] at hmax
      simp only [hw]
      intro y hy
      rcases List.mem_append.mp hy with h | h
      · rw [hmax] at h; simp at h
      · simp at h; subst h; exact le_rfl
    · rw [hw] at hmax
      simp only [hw]
      by_cases hvm : m0 < v
      · simp only [if_pos hvm]
        intro y hy
        rcases List.mem_append.mp hy with h | h
        · exact le_trans (hmax y h) (le_of_lt hvm)
        · simp at h; subst h; exact le_rfl
      · simp only [if_neg hvm]
        intro y hy
        rcases List.mem_append.mp hy with h | h
        · exact hmax y h
        · simp at h; subst h; exact not_lt.mp hvm

theorem streamInv_fold (h1 h2 : ℕ → ℕ) (xs : List ℝ) (seen : List ℝ)
    (st : StreamingStatistics) (hinv : StreamInv seen st) :
    StreamInv (seen ++ xs) (xs.foldl (StreamingStatistics.update h1 h2) st) := by
  induction xs generalizing seen st with
  | nil => simpa using hinv
  | cons x rest ih =>
      have step := streamInv_update h1 h2 seen st hinv x
      have := ih (seen ++ [x]) (st.update h1 h2 x) step
      simpa using this

theorem streamInv_new : StreamInv [] StreamingStatistics.new := by
  refine ⟨?_, ?_, ?_, ?_, ?_⟩ <;>
    simp [StreamingStatistics.new, WelfordAccumulator.new, ReservoirSampler.new]

/-! ## Claim C8: percentile ordering in the aggregated output -/

/-- Claim C8: for every aggregated-statistics record finalized from a
nonempty stream of values (as every entry of the Monte Carlo output maps
is), the percentiles are ordered `p10 ≤ p25 ≤ p50 ≤ p75 ≤ p90 ≤ p95 ≤ p99`,
and `min ≤ p10` and `p99 ≤ max`. -/
theorem C8_percentile_ordering (h1 h2 : ℕ → ℕ) (xs : List ℝ) (agg : AggregatedStatistics)
    (hne : xs ≠ [])
    (hfin : (xs.foldl (StreamingStatistics.update h1 h2) StreamingStatistics.new).finalize
      = some agg) :
    agg.p10 ≤ agg.p25 ∧ agg.p25 ≤ agg.p50 ∧ agg.p50 ≤ agg.p75 ∧ agg.p75 ≤ agg.p90 ∧
    agg.p90 ≤ agg.p95 ∧ agg.p95 ≤ agg.p99 ∧ agg.minv ≤ agg.p10 ∧ agg.p99 ≤ agg.maxv := by
  have hinv : StreamInv xs (xs.foldl (StreamingStatistics.update h1 h2)
      StreamingStatistics.new) := by
    have := streamInv_fold h1 h2 xs [] StreamingStatistics.new streamInv_new
    simpa using this
  set st := xs.foldl (StreamingStatistics.update h1 h2) StreamingStatistics.new with hst
  obtain ⟨hsub, hnil, hmin, hmax, hcap⟩ := hinv
  have hsne : st.reservoir.sample ≠ [] := fun h => hne (hnil h)
  unfold StreamingStatistics.finalize at hfin
  split at hfin
  · exact absurd hfin (by simp)
  · have hagg := Option.some_injective _ hfin
    subst hagg
    have hmono : ∀ p q : ℕ, p ≤ q →
        st.reservoir.percentileAt p ≤ st.reservoir.percentileAt q := fun p q hpq =>
      percentileOf_mono st.reservoir.sample hsne hpq
    have hmem : ∀ p : ℕ, st.reservoir.percentileAt p ∈ st.reservoir.sample := fun p =>
      percentileOf_mem st.reservoir.sample hsne p
    refine ⟨hmono 10 25 (by omega), hmono 25 50 (by omega), hmono 50 75 (by omega),
      hmono 75 90 (by omega), hmono 90 95 (by omega), hmono 95 99 (by omega), ?_, ?_⟩
    · show st.welford.minv.getD 0 ≤ st.reservoir.percentileAt 10
      rcases hw : st.welford.minv with _ | m
      · rw [hw] at hmin
        exact absurd hmin hne
      · rw [hw] at hmin
        simpa using hmin _ (hsub _ (hmem 10))
    · show st.reservoir.percentileAt 99 ≤ st.welford.maxv.getD 0
      rcases hw : st.welford.maxv with _ | m
      · rw [hw] at hmax
        exact absurd hmax hne
      · rw [hw] at hmax
        simpa using hmax _ (hsub _ (hmem 99))

/-- Model of `percentileOf` on a one-element sample is that element (the clamp to
`n - 1 = 0` makes the index 0 whatever the ceiling is). -/
theorem percentileOf_singleton (v : ℝ) (p : ℕ) : percentileOf [v] p = v := by
  unfold percentileOf
  simp

/-- The one-value stream `[5]` finalizes to the explicit record with all
percentiles and extrema 5. -/
theorem finalize_five :
    (([(5:ℝ)]).foldl (StreamingStatistics.update id id) StreamingStatistics.new).finalize
      = some ⟨5, 5, 5, 5, 5, 5, 5, 5, 5, 5, 0⟩ := by
  simp only [List.foldl]
  unfold StreamingStatistics.finalize StreamingStatistics.update StreamingStatistics.new
    WelfordAccumulator.update WelfordAccumulator.new ReservoirSampler.update
    ReservoirSampler.new WelfordAccumulator.stddev WelfordAccumulator.variance
    ReservoirSampler.percentileAt
  norm_num [percentileOf_singleton, round2, rustRound]

/-- Claim C8, witness: the ordering chain on the finalized record of the
stream `[5]`. -/
theorem C8_witness :
    (⟨5, 5, 5, 5, 5, 5, 5, 5, 5, 5, 0⟩ : AggregatedStatistics).p10 ≤
      (⟨5, 5, 5, 5, 5, 5, 5, 5, 5, 5, 0⟩ : AggregatedStatistics).p25 ∧
    (⟨5, 5, 5, 5, 5, 5, 5, 5, 5, 5, 0⟩ : AggregatedStatistics).minv ≤
      (⟨5, 5, 5, 5, 5, 5, 5, 5, 5, 5, 0⟩ : AggregatedStatistics).p10 ∧
    (⟨5, 5, 5, 5, 5, 5, 5, 5, 5, 5, 0⟩ : AggregatedStatistics).p99 ≤
      (⟨5, 5, 5, 5, 5, 5, 5, 5, 5, 5, 0⟩ : AggregatedStatistics).maxv := by
  have h := C8_percentile_ordering id id [(5:ℝ)] ⟨5, 5, 5, 5, 5, 5, 5, 5, 5, 5, 0⟩
    (by simp) finalize_five
  exact ⟨h.1, h.2.2.2.2.2.2.1, h.2.2.2.2.2.2.2⟩

/-! ## Claim C10: small streams are retained exactly -/

theorem reservoir_fold_small (h1 h2 : ℕ → ℕ) (xs : List ℝ) (rs : ReservoirSampler)
    (hcnt : rs.sample.length + xs.length ≤ rs.capacity) :
    (xs.foldl (ReservoirSampler.update h1 h2) rs).sample = rs.sample ++ xs := by
  induction xs generalizing rs with
  | nil => simp
  | cons x rest ih =>
      have hlt : rs.sample.length < rs.capacity := by simp at hcnt; omega
      have hupd : (rs.update h1 h2 x).sample = rs.sample ++ [x] := by
        unfold ReservoirSampler.update
        rw [if_pos hlt]
      have hcap : (rs.update h1 h2 x).capacity = rs.capacity := by
        unfold ReservoirSampler.update
        rw [if_pos hlt]
      have := ih (rs.update h1 h2 x) (by rw [hupd, hcap]; simp at hcnt ⊢; omega)
      simpa [hupd] using this

theorem streamFold_reservoir (h1 h2 : ℕ → ℕ) (xs : List ℝ) (st : StreamingStatistics) :
    (xs.foldl (StreamingStatistics.update h1 h2) st).reservoir
      = xs.foldl (ReservoirSampler.update h1 h2) st.reservoir := by
  induction xs generalizing st with
  | nil => rfl
  | cons x rest ih => simpa using ih (st.update h1 h2 x)

/-- Claim C10: a stream of at most 1000 values (the reservoir capacity of
`StreamingStatistics::new`) is retained in the reservoir exactly and in
order, so every percentile `p` is the exact order statistic of the full
stream at index `⌈p/100 · n⌉ - 1` clamped to `[0, n-1]`. -/
theorem C10_reservoir_exact (h1 h2 : ℕ → ℕ) (xs : List ℝ) (hlen : xs.length ≤ 1000) :
    (xs.foldl (StreamingStatistics.update h1 h2) StreamingStatistics.new).reservoir.sample
      = xs ∧
    ∀ p : ℕ,
      (xs.foldl (StreamingStatistics.update h1 h2)
        StreamingStatistics.new).reservoir.percentileAt p =
      if xs = [] then 0
      else (xs.insertionSort (· ≤ ·)).getD
        (min (⌈(p : ℝ) / 100 * xs.length⌉₊ - 1) (xs.length - 1)) 0 := by
  have hs : (xs.foldl (StreamingStatistics.update h1 h2)
      StreamingStatistics.new).reservoir.sample = xs := by
    rw [streamFold_reservoir]
    have := reservoir_fold_small h1 h2 xs (ReservoirSampler.new 1000)
      (by simp [ReservoirSampler.new]; omega)
    simpa [StreamingStatistics.new, ReservoirSampler.new] using this
  refine ⟨hs, fun p => ?_⟩
  rw [ReservoirSampler.percentileAt, hs, percentileOf]

/-- Claim C10, witness: the stream `[5]` is retained exactly. -/
theorem C10_witness :
    (([(5:ℝ)]).foldl (StreamingStatistics.update id id)
      StreamingStatistics.new).reservoir.sample = [(5:ℝ)] :=
  (C10_reservoir_exact id id [(5:ℝ)] (by norm_num)).1

/-! ## Claim C1: the "single unit, deterministic" literal scenario -/

/-- The literal scenario of the spec: horizon 10, one deterministic demand
every 5 hours from 0, mission type `M` with deterministic flight time 2 and
one required pilot, no process times, no unit policy. -/
noncomputable def scnA : Scenario :=
  { horizonHours := 10,
    demand := [{ missionType := "M", demandType := some "deterministic",
                 everyHours := some 5, startAtHours := some 0 }],
    missionTypes := [{ name := "M",
                       requiredAircrew := some { pilot := some 1 },
                       flightTime := { distType := "deterministic", valueHours := some 2 } }] }

/-- The matching state snapshot: one unit `A` with 1 FMC aircraft, 1 pilot
(MOS 7318), no SOs and no payloads. -/
def stateA : State :=
  { tables := [
      ("v_unit", ⟨[[("Unit", JVal.str "A")]]⟩),
      ("v_aircraft", ⟨[[("Unit", JVal.str "A"), ("Status", JVal.str "FMC")]]⟩),
      ("v_staffing", ⟨[[("Unit Name", JVal.str "A"), ("MOS Number", JVal.str "7318")]]⟩)] }

theorem deriveInitial_stateA :
    deriveInitialFromState stateA =
      some ⟨["A"], [("A", 1)], [("A", ⟨1, 0⟩)], [], false⟩ := by
  rfl

theorem detLoop_ten_five : detLoop 10 5 0 = [0, 5] := by
  rw [detLoop]; norm_num
  rw [detLoop]; norm_num
  rw [detLoop]; norm_num

theorem events_scnA :
    generateDemand scnA [] =
      ([⟨0, "mission_demand", "M"⟩, ⟨5, "mission_demand", "M"⟩], []) := by
  unfold generateDemand scnA
  simp only [List.foldl]
  norm_num [detLoop_ten_five, List.insertionSort, List.orderedInsert]

theorem C1_run_proj :
    (runSimulationInternalRef scnA { state := some stateA } []).toOption.map
      (fun r => (r.missions.requested, r.missions.started, r.missions.completed,
        r.missions.rejected, (lookupA r.utilization "A").map (·.aircraft)))
      = some (2, 2, 2, 0, some ((2:ℝ)/5)) := by
  unfold runSimulationInternalRef
  simp only [deriveInitial_stateA, events_scnA]
  norm_num [scnA, processEvents, handleDemand, selectUnit, sampleDurations, crewCheck,
    crewAcquire, payloadCheckLoop, payloadAcquireLoop,
    recordRejection, sampleDist, ResourcePool.availableAt, ResourcePool.cleanupDue,
    ResourcePool.tryAcquire, ResourcePool.utilization, ResourcePool.new, partitionPointLe,
    countLe, round3, rustRound, lookupA, updateA]
  exact ⟨_, rfl, rfl, rfl, rfl, rfl, _, rfl, rfl⟩

/-- Claim C1, counterexample: the claimed `requested = 3` is false — the
deterministic generator emits only while `t < horizon`, so the event at
`t = 10` is never generated and only two demands (t = 0, 5) are made. -/
theorem C1_counterexample :
    (runSimulationInternalRef scnA { state := some stateA } []).toOption.map
      (fun r => r.missions.requested) ≠ some 3 := by
  have h := C1_run_proj
  intro hc
  rcases ho : (runSimulationInternalRef scnA { state := some stateA } []).toOption with _ | r
  · rw [ho] at hc; simp at hc
  · rw [ho] at h hc
    simp at h hc
    obtain ⟨h1, -⟩ := h
    omega

/-- Claim C1, amended: on the literal "single unit, deterministic" scenario
the engine requests 2 missions (events at t = 0 and t = 5 only, since the
generator emits while `t < horizon`), starts 2, completes 2, rejects 0, and
reports aircraft utilization 0.400 (= 4 busy hours over capacity 1 × 10). -/
theorem C1_single_unit_deterministic :
    (runSimulationInternalRef scnA { state := some stateA } []).toOption.map
      (fun r => (r.missions.requested, r.missions.started, r.missions.completed,
        r.missions.rejected, (lookupA r.utilization "A").map (·.aircraft)))
      = some (2, 2, 2, 0, some ((2:ℝ)/5)) :=
  C1_run_proj

/-! ## Claim C3: the requested/started/rejected accounting -/

/-- Scenario with a duplicated required payload type: one demand at t = 0,
mission `M` requires payload type `P` twice, flight time 2. -/
noncomputable def scnB : Scenario :=
  { horizonHours := 10,
    demand := [{ missionType := "M", demandType := some "deterministic",
                 everyHours := some 20, startAtHours := some 0 }],
    missionTypes := [{ name := "M",
                       requiredPayloadTypes := some ["P", "P"],
                       flightTime := { distType := "deterministic", valueHours := some 2 } }] }

/-- One unit `A` with 1 FMC aircraft and a single payload of type `P`. -/
def stateB : State :=
  { tables := [
      ("v_unit", ⟨[[("Unit", JVal.str "A")]]⟩),
      ("v_aircraft", ⟨[[("Unit", JVal.str "A"), ("Status", JVal.str "FMC")]]⟩),
      ("v_payload", ⟨[[("Unit", JVal.str "A"), ("Type", JVal.str "P")]]⟩)] }

theorem deriveInitial_stateB :
    deriveInitialFromState stateB =
      some ⟨["A"], [("A", 1)], [], [("A", [("P", 1)])], false⟩ := by
  rfl

theorem detLoop_ten_twenty : detLoop 10 20 0 = [0] := by
  rw [detLoop]; norm_num
  rw [detLoop]; norm_num

theorem events_scnB :
    generateDemand scnB [] = ([⟨0, "mission_demand", "M"⟩], []) := by
  unfold generateDemand scnB
  simp only [List.foldl]
  norm_num [detLoop_ten_twenty, List.insertionSort, List.orderedInsert]

/-- Claim C3: on the duplicate-payload scenario the admission check passes
(each availability check sees the one free `P`), the first `try_acquire`
takes it, the second fails defensively — its `continue` only continues the
inner payload loop — so the mission is counted **both** rejected and
started: `requested = 1` but `started + rejected = 2`, violating
`requested = started + rejected + skipped_unknown` (no unknown mission
types occur).  The reason counters still sum to `rejected`. -/
theorem C3_requested_invariant_violated :
    (runSimulationInternalRef scnB { state := some stateB } []).toOption.map
      (fun r => (r.missions.requested, r.missions.started, r.missions.rejected,
        r.rejections.aircraft + r.rejections.pilot + r.rejections.so + r.rejections.payload))
      = some (1, 1, 1, 1) ∧ (1:ℕ) ≠ 1 + 1 + 0 := by
  constructor
  · unfold runSimulationInternalRef
    simp only [deriveInitial_stateB, events_scnB]
    norm_num [scnB, processEvents, handleDemand, selectUnit, sampleDurations, crewCheck,
      crewAcquire, payloadCheckLoop, payloadAcquireLoop,
      recordRejection, sampleDist, ResourcePool.availableAt, ResourcePool.cleanupDue,
      ResourcePool.tryAcquire, ResourcePool.utilization, ResourcePool.new, partitionPointLe,
      countLe, round3, rustRound, lookupA, updateA]
    exact ⟨_, rfl, rfl, rfl, rfl, rfl⟩
  · omega

/-! ## Claim C7, counterexample scenario: negative deterministic duration -/

/-- Scenario whose mission type has deterministic flight time `-25`. -/
noncomputable def scnC : Scenario :=
  { horizonHours := 10,
    demand := [{ missionType := "M", demandType := some "deterministic",
                 everyHours := some 20, startAtHours := some 0 }],
    missionTypes := [{ name := "M",
                       flightTime := { distType := "deterministic",
                                       valueHours := some (-25) } }] }

theorem events_scnC :
    generateDemand scnC [] = ([⟨0, "mission_demand", "M"⟩], []) := by
  unfold generateDemand scnC
  simp only [List.foldl]
  norm_num [detLoop_ten_twenty, List.insertionSort, List.orderedInsert]

/-- Claim C7, counterexample: with a deterministic flight time of `-25`
hours the accepted mission contributes negative busy time, and the reported
per-unit aircraft utilization is `-2.5`, outside `[0, 1]`. -/
theorem C7_counterexample :
    (runSimulationInternalRef scnC { state := some stateA } []).toOption.map
      (fun r => (lookupA r.utilization "A").map (·.aircraft))
      = some (some (-(5:ℝ)/2)) ∧ ¬ (0 ≤ -(5:ℝ)/2) := by
  constructor
  · unfold runSimulationInternalRef
    simp only [deriveInitial_stateA, events_scnC]
    norm_num [scnC, processEvents, handleDemand, selectUnit, sampleDurations, crewCheck,
      crewAcquire, payloadCheckLoop, payloadAcquireLoop,
      recordRejection, sampleDist, ResourcePool.availableAt, ResourcePool.cleanupDue,
      ResourcePool.tryAcquire, ResourcePool.utilization, ResourcePool.new, partitionPointLe,
      countLe, round3, rustRound, lookupA, updateA]
    exact ⟨_, rfl, _, rfl, rfl⟩
  · norm_num

/-! ## Claim C6: frame conditions of an admission rejection -/

/-- A pool changed at most by the expiry cleanup of `available_at`: all
counters and the capacity are untouched and the release list only lost a
prefix. -/
def CleanOnly (p q : ResourcePool) : Prop :=
  q.total = p.total ∧ q.busyTime = p.busyTime ∧ q.allocations = p.allocations ∧
  q.denials = p.denials ∧ ∃ n, q.held = p.held.drop n

/-- A freshly inserted zero-capacity payload pool (possibly cleaned). -/
def FreshClean (q : ResourcePool) : Prop :=
  q.total = 0 ∧ q.held = [] ∧ q.busyTime = 0 ∧ q.allocations = 0 ∧ q.denials = 0

/-- A payload-pool map changed at most by cleanup of existing pools and
insertion of fresh zero-capacity pools. -/
def PayloadFrame (old new : List (String × ResourcePool)) : Prop :=
  ∀ k, match lookupA old k, lookupA new k with
    | some p, some q => CleanOnly p q
    | none, some q => FreshClean q
    | none, none => True
    | some _, none => False

/-- Unit pools changed at most by cleanup / fresh payload insertion. -/
def UnitFrame (a b : UnitPools) : Prop :=
  CleanOnly a.aircraft b.aircraft ∧ CleanOnly a.pilot b.pilot ∧ CleanOnly a.so b.so ∧
  PayloadFrame a.payloads b.payloads ∧ b.missionFinishes = a.missionFinishes

/-- The pools map of the whole state, likewise. -/
def PoolsFrame (old new : List (String × UnitPools)) : Prop :=
  ∀ u, match lookupA old u, lookupA new u with
    | some a, some b => UnitFrame a b
    | none, none => True
    | _, _ => False

/-- The reason-specific rejection counter bump. -/
def bumpReason (reason : String) (rj : Rejections) : Rejections :=
  match reason with
  | "aircraft" => { rj with aircraft := rj.aircraft + 1 }
  | "pilot" => { rj with pilot := rj.pilot + 1 }
  | "so" => { rj with so := rj.so + 1 }
  | _ => { rj with payload := rj.payload + 1 }

theorem cleanOnly_refl (p : ResourcePool) : CleanOnly p p :=
  ⟨rfl, rfl, rfl, rfl, 0, (List.drop_zero _).symm⟩

theorem cleanOnly_trans {p q r : ResourcePool} (h1 : CleanOnly p q) (h2 : CleanOnly q r) :
    CleanOnly p r := by
  obtain ⟨a1, b1, c1, d1, n1, e1⟩ := h1
  obtain ⟨a2, b2, c2, d2, n2, e2⟩ := h2
  refine ⟨a2.trans a1, b2.trans b1, c2.trans c1, d2.trans d1, n2 + n1, ?_⟩
  rw [e2, e1, List.drop_drop, Nat.add_comm]

theorem cleanOnly_availableAt (p : ResourcePool) (t : ℝ) :
    CleanOnly p ((p.availableAt t).2) := by
  obtain ⟨h1, h2, h3, h4, h5, -⟩ := availableAt_frame p t
  exact ⟨h1, h2, h3, h4, h5⟩

theorem cleanOnly_crewCheck (p : ResourcePool) (t : ℝ) (need : ℕ) :
    CleanOnly p (crewCheck p t need).2 := by
  unfold crewCheck
  split
  · rcases hav : p.availableAt t with ⟨a, p1⟩
    have h := cleanOnly_availableAt p t
    rw [hav] at h
    exact h
  · exact cleanOnly_refl p

theorem append_singleton_ne {α : Type} (l : List α) (x : α) : l ≠ l ++ [x] := by
  intro h
  have := congrArg List.length h
  simp at this

theorem freshClean_cleanOnly {q r : ResourcePool} (h1 : FreshClean q)
    (h2 : CleanOnly q r) : FreshClean r := by
  obtain ⟨a1, b1, c1, d1, e1⟩ := h1
  obtain ⟨a2, b2, c2, d2, n2, e2⟩ := h2
  exact ⟨a2.trans a1, by rw [e2, b1]; simp, b2.trans c1, c2.trans d1, d2.trans e1⟩

theorem payloadFrame_refl (m : List (String × ResourcePool)) : PayloadFrame m m := by
  intro k
  cases lookupA m k with
  | none => trivial
  | some p => exact cleanOnly_refl p

theorem payloadFrame_trans {a b c : List (String × ResourcePool)}
    (h1 : PayloadFrame a b) (h2 : PayloadFrame b c) : PayloadFrame a c := by
  intro k
  have g1 := h1 k
  have g2 := h2 k
  rcases ha : lookupA a k with _ | p <;> rcases hb : lookupA b k with _ | q <;>
    rcases hc : lookupA c k with _ | r <;> rw [ha, hb] at g1 <;> rw [hb, hc] at g2 <;>
    dsimp only at g1 g2 ⊢
  · exact g2
  · exact freshClean_cleanOnly g1 g2
  · exact cleanOnly_trans g1 g2

/-- One step of the payload check loop only cleans / freshly inserts. -/
theorem payloadFrame_checkStep (t : ℝ) (pt : String) (m : List (String × ResourcePool)) :
    PayloadFrame m (updateA m pt
      (fun _ => (((lookupA m pt).getD (ResourcePool.new 0)).availableAt t).2)) := by
  intro k
  rw [lookupA_updateA]
  by_cases hk : pt = k
  · subst hk
    rcases hm : lookupA m pt with _ | p
    · simp only [if_pos rfl, hm, Option.getD_none]
      have hco := cleanOnly_availableAt (ResourcePool.new 0) t
      obtain ⟨a, b, c, d, n, e⟩ := hco
      exact ⟨a, by rw [e]; simp [ResourcePool.new], b, c, d⟩
    · simp only [if_pos rfl, hm, Option.getD_some]
      simpa using cleanOnly_availableAt p t
  · rw [if_neg hk]
    rcases lookupA m k with _ | p
    · trivial
    · exact cleanOnly_refl p

theorem payloadCheckLoop_frame (t : ℝ) (pts : List String)
    (m : List (String × ResourcePool)) :
    PayloadFrame m (payloadCheckLoop t pts m).2 := by
  induction pts generalizing m with
  | nil => exact payloadFrame_refl m
  | cons pt rest ih =>
      unfold payloadCheckLoop
      dsimp only
      have hstep := payloadFrame_checkStep t pt m
      rcases hav : ((lookupA m pt).getD (ResourcePool.new 0)).availableAt t with ⟨avail, p1⟩
      rw [hav] at hstep
      dsimp only at hstep
      split
      · exact hstep
      · exact payloadFrame_trans hstep (ih _)

theorem unitFrame_refl (a : UnitPools) : UnitFrame a a :=
  ⟨cleanOnly_refl _, cleanOnly_refl _, cleanOnly_refl _, payloadFrame_refl _, rfl⟩

/-- The pools map after replacing the selected unit's pools with a
frame-respecting update. -/
theorem poolsFrame_update (s : List (String × UnitPools)) (unit : String)
    (pool pool' : UnitPools) (hl : lookupA s unit = some pool)
    (hf : UnitFrame pool pool') :
    PoolsFrame s (updateA s unit (fun _ => pool')) := by
  intro u
  rw [lookupA_updateA]
  by_cases hu : unit = u
  · subst hu
    rw [if_pos rfl, hl]
    exact hf
  · rw [if_neg hu]
    rcases lookupA s u with _ | a
    · trivial
    · exact unitFrame_refl a

/-- Mission type `M` requiring one payload of type `P`. -/
noncomputable def mtC6 : MissionType :=
  { name := "M", requiredPayloadTypes := some ["P"],
    flightTime := { distType := "deterministic", valueHours := some 2 } }

/-- Concrete event-loop context: one unit `A`, mission `M` requiring
payload type `P`, no process times, no split. -/
noncomputable def ctxC6 : Ctx :=
  { horizon := 10, missionTypes := [("M", mtC6)],
    preSpec := none, postSpec := none, turnSpec := none, mountTimes := none,
    unitList := ["A"], missionSplit := none }

/-- Empty counters/results record used as the loop state below. -/
noncomputable def resC6 : Results :=
  { horizonHours := 10, missions := ⟨0, 0, 0, 0⟩, rejections := ⟨0, 0, 0, 0⟩,
    utilization := [], byType := [], timeline := [],
    initialResources := ⟨[], [], [], [], false⟩ }

/-- Concrete loop state: unit `A` has 1 aircraft, no crew and **no payload
pools at all**. -/
noncomputable def sC6 : SimState :=
  { pools := [("A", UnitPools.mk (ResourcePool.new 1) (ResourcePool.new 0)
      (ResourcePool.new 0) [] [])],
    results := resC6, rng := [] }

/-- Claim C6, counterexample: a demand for `M` at t = 0 is rejected with
reason `payload`, yet the selected unit's pools **are** mutated — the
payload check's `entry().or_insert_with` inserts a fresh zero-capacity pool
for `P`, so the unit's payload map grows from `[]` to `["P"]`. -/
theorem C6_counterexample :
    ((handleDemand ctxC6 0 ⟨0, "mission_demand", "M"⟩ sC6).pools.map
        (fun kv => (kv.1, kv.2.payloads.map (·.1))) = [("A", ["P"])]) ∧
    (sC6.pools.map (fun kv => (kv.1, kv.2.payloads.map (·.1)))
        = [("A", ([] : List String))]) ∧
    (handleDemand ctxC6 0 ⟨0, "mission_demand", "M"⟩ sC6).results.missions.rejected = 1 ∧
    (handleDemand ctxC6 0 ⟨0, "mission_demand", "M"⟩ sC6).results.rejections.payload = 1 := by
  refine ⟨?_, by norm_num [sC6, resC6], ?_, ?_⟩ <;>
    norm_num [ctxC6, sC6, resC6, mtC6, handleDemand, selectUnit, sampleDurations, crewCheck,
      crewAcquire, payloadCheckLoop, recordRejection,
      sampleDist, ResourcePool.availableAt, ResourcePool.cleanupDue, ResourcePool.new,
      partitionPointLe, lookupA, updateA]

/-- Claim C6, amended: whenever processing a demand event appends a
`Rejection` timeline entry (exactly the admission-check failures do),
the engine increments `missions.requested`, `missions.rejected`, the
reason counter matching the entry's reason (one of payload, aircraft,
pilot, so), and the per-mission-type `requested` and `rejected`; it starts
nothing, and the selected unit's pools change only by the expiry cleanup
performed by `available_at` and by insertion of fresh zero-capacity pools
for required payload types missing from the unit's payload map — no
busy-time, allocation or denial counter and no hold is added anywhere. -/
theorem C6_admission_rejection (ctx : Ctx) (i : ℕ) (ev : DemandEvent) (s : SimState)
    (tm : ℝ) (u mtn rsn : String)
    (htl : (handleDemand ctx i ev s).results.timeline
      = s.results.timeline ++ [TimelineEvent.rejection tm u mtn rsn]) :
    (handleDemand ctx i ev s).results.missions.requested
        = s.results.missions.requested + 1 ∧
    (handleDemand ctx i ev s).results.missions.rejected
        = s.results.missions.rejected + 1 ∧
    (handleDemand ctx i ev s).results.missions.started = s.results.missions.started ∧
    tm = ev.time ∧
    rsn ∈ (["payload", "aircraft", "pilot", "so"] : List String) ∧
    (handleDemand ctx i ev s).results.rejections = bumpReason rsn s.results.rejections ∧
    (handleDemand ctx i ev s).results.byType = updateA s.results.byType mtn
      (fun o =>
        let bt := o.getD ⟨0, 0, 0, 0⟩
        { bt with requested := bt.requested + 1, rejected := bt.rejected + 1 }) ∧
    PoolsFrame s.pools (handleDemand ctx i ev s).pools := by
  revert htl
  unfold handleDemand
  rcases hmt : lookupA ctx.missionTypes ev.missionType with _ | mt
  · intro htl
    exact absurd htl (append_singleton_ne _ _)
  · by_cases hul : ctx.unitList = []
    · simp only [if_pos hul]
      intro htl
      exact absurd htl (append_singleton_ne _ _)
    · simp only [if_neg hul]
      rcases hsel : selectUnit ctx i s.rng with ⟨unit, rng1⟩
      dsimp only
      rcases hpool : lookupA s.pools unit with _ | pool
      · intro htl
        exact absurd htl (append_singleton_ne _ _)
      · rcases hdur : sampleDurations ctx mt rng1 with
          ⟨⟨pre, mountTime, flight, post, turnaround⟩, rng2⟩
        dsimp only
        rcases hpc : payloadCheckLoop ev.time (mt.requiredPayloadTypes.getD [])
            pool.payloads with ⟨payloadOk, payloads1⟩
        dsimp only
        have hpf : PayloadFrame pool.payloads payloads1 := by
          have h := payloadCheckLoop_frame ev.time (mt.requiredPayloadTypes.getD [])
            pool.payloads
          rw [hpc] at h
          exact h
        cases payloadOk with
        | false =>
          rw [if_pos rfl]
          intro htl
          simp only [recordRejection] at htl
          have htl' : s.results.timeline ++
              [TimelineEvent.rejection ev.time unit mt.name "payload"]
              = s.results.timeline ++ [TimelineEvent.rejection tm u mtn rsn] := htl
          have h2 := List.append_cancel_left htl'
          simp only [List.cons.injEq, TimelineEvent.rejection.injEq, and_true] at h2
          obtain ⟨h3, h4, h5, h6⟩ := h2
          subst h3 h4 h5 h6
          refine ⟨rfl, rfl, rfl, rfl, by simp, rfl, rfl, ?_⟩
          exact poolsFrame_update s.pools unit pool _ hpool
            ⟨cleanOnly_refl _, cleanOnly_refl _, cleanOnly_refl _, hpf, rfl⟩
        | true =>
          rw [if_neg (by simp)]
          rcases hac : pool.aircraft.availableAt ev.time with ⟨acAvail, acPool⟩
          dsimp only
          have hacc : CleanOnly pool.aircraft acPool := by
            have h := cleanOnly_availableAt pool.aircraft ev.time
            rw [hac] at h
            exact h
          by_cases haca : acAvail < 1
          · rw [if_pos haca]
            intro htl
            simp only [recordRejection] at htl
            have htl' : s.results.timeline ++
                [TimelineEvent.rejection ev.time unit mt.name "aircraft"]
                = s.results.timeline ++ [TimelineEvent.rejection tm u mtn rsn] := htl
            have h2 := List.append_cancel_left htl'
            simp only [List.cons.injEq, TimelineEvent.rejection.injEq, and_true] at h2
            obtain ⟨h3, h4, h5, h6⟩ := h2
            subst h3 h4 h5 h6
            refine ⟨rfl, rfl, rfl, rfl, by simp, rfl, rfl, ?_⟩
            exact poolsFrame_update s.pools unit pool _ hpool
              ⟨hacc, cleanOnly_refl _, cleanOnly_refl _, hpf, rfl⟩
          · rw [if_neg haca]
            rcases hcp : crewCheck pool.pilot ev.time
                ((mt.requiredAircrew.bind (·.pilot)).getD 0) with ⟨pilotShort, pilotPool⟩
            dsimp only
            have hpcc : CleanOnly pool.pilot pilotPool := by
              have h := cleanOnly_crewCheck pool.pilot ev.time
                ((mt.requiredAircrew.bind (·.pilot)).getD 0)
              rw [hcp] at h
              exact h
            cases pilotShort with
            | true =>
              rw [if_pos rfl]
              intro htl
              simp only [recordRejection] at htl
              have htl' : s.results.timeline ++
                  [TimelineEvent.rejection ev.time unit mt.name "pilot"]
                  = s.results.timeline ++ [TimelineEvent.rejection tm u mtn rsn] := htl
              have h2 := List.append_cancel_left htl'
              simp only [List.cons.injEq, TimelineEvent.rejection.injEq, and_true] at h2
              obtain ⟨h3, h4, h5, h6⟩ := h2
              subst h3 h4 h5 h6
              refine ⟨rfl, rfl, rfl, rfl, by simp, rfl, rfl, ?_⟩
              exact poolsFrame_update s.pools unit pool _ hpool
                ⟨hacc, hpcc, cleanOnly_refl _, hpf, rfl⟩
            | false =>
              rw [if_neg (by simp)]
              rcases hcs : crewCheck pool.so ev.time
                  ((mt.requiredAircrew.bind (·.so)).getD 0) with ⟨soShort, soPool⟩
              dsimp only
              have hscc : CleanOnly pool.so soPool := by
                have h := cleanOnly_crewCheck pool.so ev.time
                  ((mt.requiredAircrew.bind (·.so)).getD 0)
                rw [hcs] at h
                exact h
              cases soShort with
              | true =>
                rw [if_pos rfl]
                intro htl
                simp only [recordRejection] at htl
                have htl' : s.results.timeline ++
                    [TimelineEvent.rejection ev.time unit mt.name "so"]
                    = s.results.timeline ++ [TimelineEvent.rejection tm u mtn rsn] := htl
                have h2 := List.append_cancel_left htl'
                simp only [List.cons.injEq, TimelineEvent.rejection.injEq, and_true] at h2
                obtain ⟨h3, h4, h5, h6⟩ := h2
                subst h3 h4 h5 h6
                refine ⟨rfl, rfl, rfl, rfl, by simp, rfl, rfl, ?_⟩
                exact poolsFrame_update s.pools unit pool _ hpool
                  ⟨hacc, hpcc, hscc, hpf, rfl⟩
              | false =>
                rw [if_neg (by simp)]
                rcases hpa : payloadAcquireLoop ev.time
                    (pre + mountTime + flight + post + turnaround)
                    (mt.requiredPayloadTypes.getD []) payloads1 with ⟨payloadFails, payloads2⟩
                dsimp only
                rcases hta : acPool.tryAcquire ev.time
                    (pre + mountTime + flight + post + turnaround) 1 with ⟨acOk, acPool2⟩
                dsimp only
                cases acOk with
                | false =>
                  rw [if_pos rfl]
                  intro htl
                  exact absurd htl (append_singleton_ne _ _)
                | true =>
                  rw [if_neg (by simp)]
                  rcases hcap : crewAcquire pilotPool ev.time
                      (pre + mountTime + flight + post + turnaround)
                      ((mt.requiredAircrew.bind (·.pilot)).getD 0) with ⟨piOk, piPool2⟩
                  dsimp only
                  cases piOk with
                  | false =>
                    rw [if_pos rfl]
                    intro htl
                    exact absurd htl (append_singleton_ne _ _)
                  | true =>
                    rw [if_neg (by simp)]
                    rcases hcas : crewAcquire soPool ev.time
                        (pre + mountTime + flight + post + turnaround)
                        ((mt.requiredAircrew.bind (·.so)).getD 0) with ⟨soOk, soPool2⟩
                    dsimp only
                    cases soOk with
                    | false =>
                      rw [if_pos rfl]
                      intro htl
                      exact absurd htl (append_singleton_ne _ _)
                    | true =>
                      rw [if_neg (by simp)]
                      intro htl
                      have htl' : s.results.timeline ++
                          [TimelineEvent.mission unit mt.name ev.time
                            (ev.time + pre + mountTime + flight + post + turnaround)
                            [⟨"preflight", ev.time, ev.time + pre⟩,
                             ⟨"mount", ev.time + pre, ev.time + pre + mountTime⟩,
                             ⟨"flight", ev.time + pre + mountTime,
                               ev.time + pre + mountTime + flight⟩,
                             ⟨"postflight", ev.time + pre + mountTime + flight,
                               ev.time + pre + mountTime + flight + post⟩,
                             ⟨"turnaround", ev.time + pre + mountTime + flight + post,
                               ev.time + pre + mountTime + flight + post + turnaround⟩]]
                          = s.results.timeline
                            ++ [TimelineEvent.rejection tm u mtn rsn] := htl
                      have h2 := List.append_cancel_left htl'
                      simp at h2

/-- Claim C6, witness: the amended theorem applied to the concrete
payload rejection of `ctxC6`/`sC6`. -/
theorem C6_witness :
    (handleDemand ctxC6 0 ⟨0, "mission_demand", "M"⟩ sC6).results.missions.rejected
      = sC6.results.missions.rejected + 1 ∧
    ("payload" : String) ∈ (["payload", "aircraft", "pilot", "so"] : List String) ∧
    PoolsFrame sC6.pools (handleDemand ctxC6 0 ⟨0, "mission_demand", "M"⟩ sC6).pools := by
  have h := C6_admission_rejection ctxC6 0 ⟨0, "mission_demand", "M"⟩ sC6 0 "A" "M" "payload"
    (by norm_num [ctxC6, sC6, resC6, mtC6, handleDemand, selectUnit, sampleDurations,
      crewCheck, crewAcquire, payloadCheckLoop, recordRejection, sampleDist,
      ResourcePool.availableAt, ResourcePool.cleanupDue, ResourcePool.new,
      partitionPointLe, lookupA, updateA])
  exact ⟨h.2.1, h.2.2.2.2.1, h.2.2.2.2.2.2.2⟩

end MonteCarloSim
